import Mathlib

/-!
Verification of the OCR job pipeline (archive preprocessing, adaptive batch
submission, completion polling, result reconciliation, document assembly).

The definitions below are shallow embeddings of the TypeScript source:
filename validation and natural-sort comparison (utils/ocr image helpers),
paragraph assembly (utils/ocr/paragraphs.ts), and the pipeline orchestration
(the feature-complete processOcrJob variant with adaptive batch sizing).
JavaScript strings are modelled as Lean `String`, JS numbers used as integer
counters/indices as `Nat`/`Int`, and `node:path` helpers as the corresponding
string functions.
-/

namespace OcrApp

instance {ε α : Type} [DecidableEq ε] [DecidableEq α] :
    DecidableEq (Except ε α) := fun x y =>
  match x, y with
  | .error a, .error b =>
      if h : a = b then .isTrue (by rw [h])
      else .isFalse (fun hc => h (Except.error.inj hc))
  | .ok a, .ok b =>
      if h : a = b then .isTrue (by rw [h])
      else .isFalse (fun hc => h (Except.ok.inj hc))
  | .error _, .ok _ => .isFalse (fun hc => Except.noConfusion hc)
  | .ok _, .error _ => .isFalse (fun hc => Except.noConfusion hc)

/-! ### String primitives

Lean core's `String` operations are byte-position based and do not reduce
inside the kernel, so the JS string operations the source uses are modelled
directly on the character lists underlying `String`. -/

def strToLower (s : String) : String := String.mk (s.data.map Char.toLower)

def strStartsWith (s pre : String) : Bool := pre.data.isPrefixOf s.data

def strEndsWith (s suf : String) : Bool :=
  suf.data.reverse.isPrefixOf s.data.reverse

def strDrop (s : String) (n : Nat) : String := String.mk (s.data.drop n)

def strDropRight (s : String) (n : Nat) : String :=
  String.mk (s.data.take (s.data.length - n))

def strTakeRight (s : String) (n : Nat) : String :=
  String.mk (s.data.drop (s.data.length - n))

def strLength (s : String) : Nat := s.data.length

/-- `split` on a single-character separator (the JS `split("\n")` / path
splitting this model needs). -/
def charListSplit (sep : Char) : List Char → List (List Char)
  | [] => [[]]
  | c :: cs =>
      if c = sep then [] :: charListSplit sep cs
      else
        match charListSplit sep cs with
        | [] => [[c]]
        | t :: ts => (c :: t) :: ts

def strSplitOnChar (sep : Char) (s : String) : List String :=
  (charListSplit sep s.data).map String.mk

/-- JS `trim`: strip leading and trailing whitespace. -/
def strTrim (s : String) : String :=
  String.mk
    (((s.data.dropWhile Char.isWhitespace).reverse.dropWhile
      Char.isWhitespace).reverse)

/-- JS `array.join("")`. -/
def strJoin (l : List String) : String := l.foldl (fun a b => a ++ b) ""

/-- JS `array.join(sep)`. -/
def strJoinSep (sep : String) : List String → String
  | [] => ""
  | [s] => s
  | s :: rest => s ++ sep ++ strJoinSep sep rest

/-- JS `Array.prototype.sort` is a stable comparator sort; it is modelled
as stable insertion sort (equal elements keep their relative order, each
element is inserted after the equals already placed). -/
def stableInsert (le : α → α → Bool) (a : α) : List α → List α
  | [] => [a]
  | b :: bs => if le b a then b :: stableInsert le a bs else a :: b :: bs

def stableSort (le : α → α → Bool) (l : List α) : List α :=
  l.foldl (fun acc x => stableInsert le x acc) []

/-- Code-point lexicographic strict order on character lists. -/
def charListLt : List Char → List Char → Bool
  | [], [] => false
  | [], _ :: _ => true
  | _ :: _, [] => false
  | a :: as, b :: bs =>
      if a.toNat < b.toNat then true
      else if b.toNat < a.toNat then false
      else charListLt as bs

/-! ### JS / node:path string helpers -/

/-- `node:path.basename`: the last non-empty `/`-separated component. -/
def jsBasename (p : String) : String :=
  match ((strSplitOnChar '/' p).filter (fun s => s ≠ "")).getLast? with
  | some b => b
  | none => p

/-- Position of the last `'.'` in a character list, if any. -/
def lastDotPos (cs : List Char) : Option Nat :=
  ((cs.enum.filter (fun ic => ic.2 = '.')).map (fun ic => ic.1)).getLast?

/-- `node:path.extname`: substring from the last `'.'` of the basename,
empty when there is no dot or the only dot is the leading character. -/
def jsExtname (b : String) : String :=
  match lastDotPos b.data with
  | some i => if i = 0 then "" else String.mk (b.data.drop i)
  | none => ""

/-- `node:path.basename(base, ext)`: strips `ext` when it is a proper suffix. -/
def stripExtSuffix (base ext : String) : String :=
  if base ≠ ext ∧ ext ≠ "" ∧ strEndsWith base ext then
    strDropRight base (strLength ext)
  else base

/-- The test `/\.(png|jpe?g)$/i.test(ext)`. -/
def isImageExt (ext : String) : Bool :=
  let e := strToLower ext
  strEndsWith e ".png" || strEndsWith e ".jpg" || strEndsWith e ".jpeg"

/-- `name.match(/\.(png|jpe?g)$/i)?.[0]`: the matched extension (original
case, including the dot) when the name ends in an image extension. -/
def matchImageExtSuffix (name : String) : Option String :=
  let e := strToLower name
  if strEndsWith e ".png" then some (strTakeRight name 4)
  else if strEndsWith e ".jpeg" then some (strTakeRight name 5)
  else if strEndsWith e ".jpg" then some (strTakeRight name 4)
  else none

/-- `Number.parseInt` on a string of ASCII digits. -/
def natOfDigits (s : String) : Nat :=
  s.data.foldl (fun n c => n * 10 + (c.toNat - '0'.toNat)) 0

/-- The leading digit run of a string (`/^(\d+)/`). -/
def leadingDigits (s : String) : String :=
  String.mk (s.data.takeWhile Char.isDigit)

/-- `/^\d+$/.test s`. -/
def isAllDigits (s : String) : Bool :=
  s.length > 0 && s.data.all Char.isDigit

/-- `localeCompare`, modelled as code-point lexicographic comparison
(adequate for the ASCII filenames this pipeline handles). -/
def localeCompare (a b : String) : Int :=
  if charListLt a.data b.data then -1
  else if charListLt b.data a.data then 1
  else 0

/-! ### Image-entry validation (utils/ocr: validateProcessableImageEntry) -/

structure ProcessableImageResult where
  baseName : String
  originalName : String
  shouldIncludeInZip : Bool
deriving Repr, DecidableEq

/-- `validateProcessableImageEntry`: drops `__MACOSX/` trees, AppleDouble
(`._`-prefixed) files, non-image extensions and names without a leading digit
run; the leading digit run (parsed as an integer) is the base name, and only
pure-integer names are flagged for inclusion in the filtered archive. -/
def validateProcessableImageEntry (entryName : String) :
    Option ProcessableImageResult :=
  if strStartsWith entryName "__MACOSX/" then none
  else
    let base := jsBasename entryName
    if strStartsWith base "._" then none
    else
      let ext := jsExtname base
      if !isImageExt ext then none
      else
        let nameWithoutExt := stripExtSuffix base ext
        let digits := leadingDigits nameWithoutExt
        if digits = "" then none
        else
          some { baseName := toString (natOfDigits digits)
                 originalName := base
                 shouldIncludeInZip := isAllDigits nameWithoutExt }

/-- `getBaseKeyFromFilename`: strips the last extension and returns the
leading integer (without leading zeros), or the whole stripped name when it
does not start with a digit. -/
def getBaseKeyFromFilename (filename : String) : String :=
  let name :=
    match lastDotPos filename.data with
    | some i =>
        -- `replace(/\.[^.]+$/, "")`: the last dot must be followed by at
        -- least one character for the extension to be stripped.
        if i + 1 < filename.data.length then String.mk (filename.data.take i)
        else filename
    | none => filename
  let digits := leadingDigits name
  if digits = "" then name else toString (natOfDigits digits)

/-! ### Natural filename comparison (utils/ocr: compareImageFilenames) -/

inductive FToken where
  | num (n : Nat)
  | str (s : String)
deriving Repr, DecidableEq

/-- Maximal runs of digits / non-digits (`/\d+|[^\d]+/g`), built by
grouping adjacent characters of the same digit-ness. -/
def splitRuns (cs : List Char) : List (List Char) :=
  cs.foldr (fun c acc =>
    match acc with
    | (d :: run) :: rest =>
        if c.isDigit == d.isDigit then (c :: d :: run) :: rest
        else [c] :: (d :: run) :: rest
    | _ => [[c]]) []

/-- `tokenizeFilename`: lowercases, strips the last extension, and splits
into numeric tokens (digit runs, as numbers) and string tokens. -/
def tokenizeFilename (input : String) : List FToken :=
  let lower := strToLower input
  let name :=
    match lastDotPos lower.data with
    | some i =>
        if i + 1 < lower.data.length then String.mk (lower.data.take i)
        else lower
    | none => lower
  match splitRuns name.data with
  | [] => [FToken.str name]
  | runs =>
      (runs.map (fun run =>
        if run.all Char.isDigit then FToken.num (natOfDigits (String.mk run))
        else FToken.str (String.mk run))).filter
        (fun t => t ≠ FToken.str "")

/-- Token-by-token comparison of `compareImageFilenames`: missing tokens sort
first, numbers compare numerically and sort before strings, strings compare
lexically. -/
def compareTokenLists : List FToken → List FToken → Int
  | [], [] => 0
  | [], _ :: _ => -1
  | _ :: _, [] => 1
  | FToken.num a :: as, FToken.num b :: bs =>
      if a ≠ b then (a : Int) - (b : Int) else compareTokenLists as bs
  | FToken.num _ :: _, FToken.str _ :: _ => -1
  | FToken.str _ :: _, FToken.num _ :: _ => 1
  | FToken.str a :: as, FToken.str b :: bs =>
      if a ≠ b then localeCompare a b else compareTokenLists as bs

def compareImageFilenames (a b : String) : Int :=
  compareTokenLists (tokenizeFilename a) (tokenizeFilename b)

/-- The crop-manifest sort used by the preprocessing stage: the natural
comparator, tie-broken by raw `localeCompare` of the full filenames; the
JS stable sort is modelled by stable merge sort. -/
def sortCropFilenames (l : List String) : List String :=
  stableSort (fun a b =>
    (if compareImageFilenames a b ≠ 0 then compareImageFilenames a b
     else localeCompare a b) ≤ 0) l

/-! ### Streaming archive preprocessing (processOcrJob: streamAndProcessZip) -/

structure ZipEntry where
  path : String
  isDirectory : Bool
deriving Repr, DecidableEq

/-- The validated results of the non-directory entries, in archive order. -/
def processableResults (entries : List ZipEntry) : List ProcessableImageResult :=
  (entries.filter (fun e => !e.isDirectory)).filterMap
    (fun e => validateProcessableImageEntry e.path)

/-- Name under which an accepted entry is appended to the filtered archive:
base name plus the original extension (default `.png`). -/
def zipFilenameOf (p : ProcessableImageResult) : String :=
  p.baseName ++ (matchImageExtSuffix p.originalName).getD ".png"

/-- Names appended to the filtered archive, in stream order: every
processable entry whose `shouldIncludeInZip` flag is set (the streaming loop
performs no duplicate suppression on base keys). -/
def archiveNames (entries : List ZipEntry) : List String :=
  ((processableResults entries).filter (fun p => p.shouldIncludeInZip)).map
    zipFilenameOf

/-- Crop filename of a processable entry: original name with the image
extension replaced by `.png`. -/
def cropFilenameOf (p : ProcessableImageResult) : String :=
  match matchImageExtSuffix p.originalName with
  | some e => p.originalName.dropRight e.length ++ ".png"
  | none => p.originalName

/-- Crop filenames produced for recognition (all processable entries). -/
def cropFilenames (entries : List ZipEntry) : List String :=
  (processableResults entries).map cropFilenameOf

/-! ### Batch partitioning (processOcrJob: chunkArray) -/

def chunkArrayGo (size : Nat) : Nat → List α → List (List α)
  | 0, _ => []
  | _, [] => []
  | fuel + 1, x :: xs =>
      (x :: xs).take size :: chunkArrayGo size fuel ((x :: xs).drop size)

def chunkArray (l : List α) (size : Nat) : List (List α) :=
  if size = 0 then [] else chunkArrayGo size l.length l

/-! ### Paragraph assembly (utils/ocr/paragraphs.ts and buildDocuments) -/

/-- `Number(s)` as used by the paragraph key sort, modelled on the values
`getBaseKeyFromFilename` produces: blank strings map to 0, digit strings to
their value, anything else to NaN (`none`). -/
def jsNumber (s : String) : Option Nat :=
  let t := strTrim s
  if t = "" then some 0
  else if t.data.all Char.isDigit then some (natOfDigits t)
  else none

/-- The paragraph key comparator: numeric keys in numeric order before
non-numeric keys, non-numeric keys in lexical order. -/
def sortKeys (a b : String) : Int :=
  match jsNumber a, jsNumber b with
  | some na, some nb => (na : Int) - (nb : Int)
  | some _, none => -1
  | none, some _ => 1
  | none, none => localeCompare a b

/-- One persisted OCR result row. -/
structure Frame where
  jobId : String
  filename : String
  baseKey : String
  index : Nat
  text : String
deriving Repr, DecidableEq

/-- The grouping fold of `buildParagraphsFromFrames`: frames whose trimmed
text is empty are skipped; the effective key is the stored base key when its
trim is non-empty, otherwise it is derived from the filename; buckets keep
insertion order, keys keep first-insertion order. -/
def groupStep (acc : List (String × List Frame)) (frame : Frame) :
    List (String × List Frame) :=
  let normalizedText := strTrim frame.text
  if normalizedText = "" then acc
  else
    let baseKey :=
      if strTrim frame.baseKey ≠ "" then frame.baseKey
      else getBaseKeyFromFilename frame.filename
    let entry := { frame with baseKey := baseKey, text := normalizedText }
    match acc.findIdx? (fun kb => kb.1 = baseKey) with
    | some i =>
        match acc.get? i with
        | some kb => acc.set i (kb.1, kb.2 ++ [entry])
        | none => acc
    | none => acc ++ [(baseKey, [entry])]

def groupFrames (frames : List Frame) : List (String × List Frame) :=
  frames.foldl groupStep []

/-- `buildParagraphsFromFrames`: group, sort keys, sort each bucket by frame
index (stable), join texts with single spaces. -/
def buildParagraphsFromFrames (frames : List Frame) : List String :=
  if frames = [] then []
  else
    let grouped := groupFrames frames
    let sortedKeys := stableSort (fun a b => sortKeys a b ≤ 0)
      (grouped.map (fun kb => kb.1))
    sortedKeys.map (fun key =>
      match grouped.find? (fun kb => kb.1 = key) with
      | some kb =>
          strJoinSep " "
            ((stableSort (fun a b => a.index ≤ b.index) kb.2).map
              (fun f => f.text))
      | none => "")

/-- `buildDocuments` plain-text rendering: paragraphs interleaved with empty
lines then joined with `"\n"` — one blank line between paragraphs. -/
def txtContentOf (paragraphs : List String) : String :=
  strJoinSep "\n"
    ((paragraphs.enum.map (fun ip =>
        if ip.1 + 1 < paragraphs.length then [ip.2, ""] else [ip.2])).flatten)

/-! ### Adaptive batch submission (processOcrJob: batch loop) -/

def BATCH_SIZE : Nat := 500

def BATCH_SIZE_REDUCTION_STEPS : List Nat := [500, 400, 300, 200, 100, 50]

/-- One crop-manifest entry. -/
structure CropMeta where
  filename : String
  cropKey : String
  cropSignedUrl : String
deriving Repr, DecidableEq

/-- Correlation id embedded in each batch request line:
`job-{jobId}-batch-{batchIndex}-frame-{globalIndex}-{filename}`. -/
def mkCustomId (jobId : String) (batchIndex globalIndex : Nat)
    (filename : String) : String :=
  "job-" ++ jobId ++ "-batch-" ++ toString batchIndex ++ "-frame-" ++
    toString globalIndex ++ "-" ++ filename

/-- One accepted submission: the batch ordinal, the global start index used
for its correlation ids, and the items actually sent. -/
structure SubmittedBatch (α : Type) where
  batchIndex : Nat
  globalStartIndex : Nat
  chunk : List α
deriving Repr, DecidableEq

inductive SubmitError where
  | emptyChunk (batchIndex : Nat)
  | ladderExhausted (size : Nat)
  | tokenLimit
  | noItemsAfterReduction (size : Nat)
  | failedAfterRetries (batchIndex : Nat)
  | chunkIndexOutOfRange (batchIndex : Nat)
  | fuelExhausted
deriving Repr, DecidableEq

/-- The inner creation/retry loop of one batch submission. `rejects` is the
provider capacity oracle, consumed once per `batches.create` call; `remaining`
counts the iterations the `retryAttempt <= maxRetries` guard still allows.
Returns the chunk actually accepted, the batch size it was created at, and
the next oracle position. -/
def createAttempts (rejects : Nat → Bool) (batchIndex : Nat) :
    (remaining : Nat) → (calls : Nat) → (localChunk : List α) →
    (localBatchSize : Nat) → Except SubmitError (List α × Nat × Nat)
  | 0, _, _, _ => .error (.failedAfterRetries batchIndex)
  | remaining + 1, calls, localChunk, localBatchSize =>
    if localChunk.isEmpty then .error (.emptyChunk batchIndex)
    else if rejects calls then
      -- `batches.create` rejected with a token-limit signal
      if remaining > 0 then
        let currentRetryIndex : Int :=
          match BATCH_SIZE_REDUCTION_STEPS.indexOf? localBatchSize with
          | some i => (i : Int)
          | none => -1
        if currentRetryIndex < (BATCH_SIZE_REDUCTION_STEPS.length : Int) - 1 then
          let newBatchSize :=
            BATCH_SIZE_REDUCTION_STEPS.getD (currentRetryIndex + 1).toNat 0
          let chunkToRetry := localChunk.take newBatchSize
          if chunkToRetry.isEmpty then .error (.noItemsAfterReduction newBatchSize)
          else createAttempts rejects batchIndex remaining (calls + 1)
            chunkToRetry newBatchSize
        else .error (.ladderExhausted localBatchSize)
      else .error .tokenLimit
    else .ok (localChunk, localBatchSize, calls + 1)

/-- `maxRetries` for a batch, from the current batch size's ladder position. -/
def maxRetriesFor (currentBatchSize : Nat) : Nat :=
  match BATCH_SIZE_REDUCTION_STEPS.indexOf? currentBatchSize with
  | some i => BATCH_SIZE_REDUCTION_STEPS.length - 1 - i
  | none => BATCH_SIZE_REDUCTION_STEPS.length - 1

structure SubmitState (α : Type) where
  cropsChunks : List (List α)
  batchIndex : Nat
  processedItemsCount : Nat
  currentBatchSize : Nat
  submittedImages : Nat
  totalBatches : Nat
  submitted : List (SubmittedBatch α)
  calls : Nat
deriving Repr

/-- The outer sequential submission loop (polling is modelled as completing
for every accepted batch; the poller itself is verified separately). On a
size reduction the source splices `cropsChunks` from `batchIndex` onwards,
replacing the tail — including the slot of the chunk that was just
submitted — with the re-partitioned remainder, then advances using the
post-splice chunk at `batchIndex`. Reading past the end of `cropsChunks`
(a JS `TypeError` on `undefined.length`) is modelled as an error. -/
def submitLoopGo (cropsMeta : List α) (rejects : Nat → Bool) :
    Nat → SubmitState α → Except SubmitError (SubmitState α)
  | 0, _ => .error .fuelExhausted
  | fuel + 1, st =>
    if hlt : st.batchIndex < st.cropsChunks.length then
      let globalStartIndex := st.processedItemsCount
      let localChunk := st.cropsChunks.get ⟨st.batchIndex, hlt⟩
      match createAttempts rejects st.batchIndex
          (maxRetriesFor st.currentBatchSize + 1) st.calls localChunk
          st.currentBatchSize with
      | .error e => .error e
      | .ok (submittedChunk, localBatchSize, calls') =>
        let st' :=
          if localBatchSize ≠ st.currentBatchSize then
            let originalChunk := localChunk
            let processedInThisBatch := submittedChunk.length
            let remainingInOriginalChunk := originalChunk.drop processedInThisBatch
            let remainingCrops := remainingInOriginalChunk ++
              cropsMeta.drop (st.processedItemsCount + originalChunk.length)
            let newChunks := chunkArray remainingCrops localBatchSize
            let remainingItems :=
              cropsMeta.length - st.processedItemsCount - processedInThisBatch
            { st with
              cropsChunks := st.cropsChunks.take st.batchIndex ++ newChunks
              currentBatchSize := localBatchSize
              totalBatches := st.batchIndex + 1 +
                (remainingItems + localBatchSize - 1) / localBatchSize }
          else st
        match st'.cropsChunks.get? st.batchIndex with
        | none => .error (.chunkIndexOutOfRange st.batchIndex)
        | some chunkAt =>
          submitLoopGo cropsMeta rejects fuel
            { st' with
              submitted := st'.submitted ++
                [⟨st.batchIndex, globalStartIndex, submittedChunk⟩]
              submittedImages := st'.submittedImages + chunkAt.length
              processedItemsCount := st'.processedItemsCount + chunkAt.length
              batchIndex := st.batchIndex + 1
              calls := calls' }
    else .ok st

/-- Entry point of the batch loop: partition at the default size and run. -/
def submitLoop (cropsMeta : List α) (rejects : Nat → Bool) (fuel : Nat) :
    Except SubmitError (SubmitState α) :=
  let chunks := chunkArray cropsMeta BATCH_SIZE
  submitLoopGo cropsMeta rejects fuel
    ⟨chunks, 0, 0, BATCH_SIZE, 0, chunks.length, [], 0⟩

/-- Correlation ids written into one submitted batch's request lines. -/
def submittedCustomIds (jobId : String) (b : SubmittedBatch CropMeta) :
    List String :=
  b.chunk.enum.map (fun ic =>
    mkCustomId jobId b.batchIndex (b.globalStartIndex + ic.1) ic.2.filename)

/-- All correlation ids embedded across the submitted batches, in order. -/
def allSubmittedCustomIds (jobId : String)
    (batches : List (SubmittedBatch CropMeta)) : List String :=
  (batches.map (submittedCustomIds jobId)).flatten

/-! ### Completion polling (processOcrJob: per-batch wait loop and
checkBatchStatus) -/

/-- What one `batches.retrieve` status read yields. -/
structure BatchStatusRead where
  status : String
  outputFileId : Option String
deriving Repr, DecidableEq

inductive PollResult where
  | completed (outputFileId : String)
  | failed (status : String)
  | polling
deriving Repr, DecidableEq

/-- The per-batch wait loop: poll, return the output pointer once the status
is `completed` with a (truthy) output file id, throw on `failed`/`cancelled`,
otherwise sleep (a durable `step.sleep`, irrelevant to the result) and poll
again. `statuses n` is the provider's answer to the `n`-th poll; `fuel`
bounds the unrolling, `.polling` meaning the loop is still running. -/
def pollBatch (statuses : Nat → BatchStatusRead) :
    Nat → Nat → PollResult
  | 0, _ => .polling
  | fuel + 1, attempt =>
    let s := statuses attempt
    if s.status = "completed" ∧ s.outputFileId.getD "" ≠ "" then
      .completed (s.outputFileId.getD "")
    else if s.status = "failed" ∨ s.status = "cancelled" then
      .failed s.status
    else pollBatch statuses fuel (attempt + 1)

/-- The queued/validating/in-progress family of §6's status vocabulary. -/
def isInFlightStatus (s : String) : Bool :=
  s = "queued" || s = "validating" || s = "in_progress"

def isTerminalStatus (s : String) : Bool :=
  s = "completed" || s = "failed" || s = "cancelled"

/-! ### Result reconciliation (processOcrJob: saveBatchResults) -/

/-- `/^job-(.+)-batch-(\d+)-frame-(\d+)-(.+)$/` applied to a correlation id,
returning (filename, global index): group 1 is greedy, so the split is the
one with the longest job-id segment; the digit groups are maximal runs. -/
def matchCustomIdTail (t : String) : Option (String × Nat) :=
  if strStartsWith t "-batch-" then
    let t1 := strDrop t 7
    let d1 := String.mk (t1.data.takeWhile Char.isDigit)
    if d1 = "" then none
    else
      let t2 := strDrop t1 (strLength d1)
      if strStartsWith t2 "-frame-" then
        let t3 := strDrop t2 7
        let d2 := String.mk (t3.data.takeWhile Char.isDigit)
        if d2 = "" then none
        else
          let t4 := strDrop t3 (strLength d2)
          if strStartsWith t4 "-" then
            let g4 := strDrop t4 1
            if g4 = "" then none else some (g4, natOfDigits d2)
          else none
      else none
  else none

def parseCustomId (s : String) : Option (String × Nat) :=
  if strStartsWith s "job-" then
    let r := strDrop s 4
    ((List.range (strLength r)).reverse).findSome? (fun i =>
      if i = 0 then none else matchCustomIdTail (strDrop r i))
  else none

/-- Chat-completion message content (`string | ContentPart[]`). -/
inductive ContentPart where
  | str (s : String)
  | obj (type : Option String) (text : Option String)
deriving Repr, DecidableEq

inductive ChatContent where
  | str (s : String)
  | arr (parts : List ContentPart)
deriving Repr, DecidableEq

def contentPartText : ContentPart → String
  | .str s => s
  | .obj type text =>
      match type, text with
      | some "text", some t => t
      | _, _ => ""

/-- `extractTextFromCompletion`. -/
def extractTextFromCompletion : Option ChatContent → String
  | some (.str s) => strTrim s
  | some (.arr parts) =>
      strTrim (strJoin (parts.map contentPartText))
  | none => ""

/-- The shape of one JSON-decoded batch output line. -/
structure LineRecord where
  custom_id : Option String
  error : Bool
  content : Option ChatContent
deriving Repr, DecidableEq

/-- Non-empty trimmed lines of an output file
(`split("\n").map(trim).filter(length > 0)`). -/
def nonblankLines (file : String) : List String :=
  ((strSplitOnChar '\n' file).map strTrim).filter (fun l => l ≠ "")

/-- One completed batch whose results are to be reconciled; `output` is the
content of its provider output file. -/
structure ProcessedBatch where
  batchIndex : Nat
  output : String
deriving Repr, DecidableEq

structure ExpectedEntry where
  customId : String
  filename : String
  index : Nat
  url : String
deriving Repr, DecidableEq

/-- The expected correlation ids the reconciler reconstructs from the crop
manifest, using the *constant* default batch size. -/
def expectedEntries (jobId : String) (cropsMeta : List CropMeta) :
    List ExpectedEntry :=
  cropsMeta.enum.map (fun ic =>
    { customId := mkCustomId jobId (ic.1 / BATCH_SIZE) ic.1 ic.2.filename
      filename := ic.2.filename
      index := ic.1
      url := ic.2.cropSignedUrl })

structure FailedItem where
  customId : String
  filename : String
deriving Repr, DecidableEq

structure MainState where
  frames : List Frame
  count : Nat
  failed : List FailedItem
  seen : List String
deriving Repr

inductive SaveError where
  | emptyBatch (batchIndex : Nat)
  | invalidJson (batchIndex : Nat)
  | retryFailed (status : String)
  | retryTimeout
  | mismatch (expected got batches : Nat)
  | noFrames (batches : Nat)
deriving Repr, DecidableEq

/-- Processing of one decoded output line in the main pass: error lines with
a parseable correlation id are recorded as failed and persisted provisionally
with empty text; success lines are persisted with their (normalized) text;
lines without a parseable correlation id are skipped. -/
def processLine (jobId : String) (st : MainState) (rec : LineRecord) :
    MainState :=
  if rec.error then
    match rec.custom_id with
    | some cid =>
        match parseCustomId cid with
        | some fi =>
            { frames := st.frames ++
                [{ jobId := jobId, filename := fi.1
                   baseKey := getBaseKeyFromFilename fi.1
                   index := fi.2, text := "" }]
              count := st.count + 1
              failed := st.failed ++ [⟨cid, fi.1⟩]
              seen := cid :: st.seen }
        | none => st
    | none => st
  else
    match rec.custom_id with
    | none => st
    | some cid =>
        match parseCustomId cid with
        | none => st
        | some fi =>
            let text := extractTextFromCompletion rec.content
            let finalText := if text = "" ∨ text = "<EMPTY>" then "" else text
            { frames := st.frames ++
                [{ jobId := jobId, filename := fi.1
                   baseKey := getBaseKeyFromFilename fi.1
                   index := fi.2, text := finalText }]
              count := st.count + 1
              failed := st.failed
              seen := cid :: st.seen }

/-- Processing of one batch's output file in the main pass: an output with
zero non-empty lines throws; a line that fails to JSON-decode throws. -/
def processBatchOutput (jobId : String) (decode : String → Option LineRecord)
    (st : MainState) (pb : ProcessedBatch) : Except SaveError MainState :=
  let lines := nonblankLines pb.output
  if lines = [] then .error (.emptyBatch pb.batchIndex)
  else
    lines.foldlM (fun st line =>
      match decode line with
      | none => .error (.invalidJson pb.batchIndex)
      | some rec => .ok (processLine jobId st rec)) st

/-- The missing items: expected entries whose correlation id was not seen. -/
def missingItemsOf (expected : List ExpectedEntry) (seen : List String) :
    List ExpectedEntry :=
  expected.filter (fun e => !(seen.contains e.customId))

structure RetryItem where
  customId : String
  filename : String
  index : Nat
deriving Repr, DecidableEq

/-- Failed items (index recovered from the expected map, default 0) followed
by missing items. -/
def retryItemsOf (expected : List ExpectedEntry) (st : MainState) :
    List RetryItem :=
  st.failed.map (fun f =>
    { customId := f.customId, filename := f.filename
      index := ((expected.find? (fun e => e.customId = f.customId)).map
        (fun e => e.index)).getD 0 }) ++
  (missingItemsOf expected st.seen).map (fun e =>
    { customId := e.customId, filename := e.filename, index := e.index })

/-- One request line of the supplementary retry batch. -/
structure RetryLine where
  customId : String
  url : String
deriving Repr, DecidableEq

/-- `cropUrlMap` (`Object.fromEntries`): last entry wins per filename. -/
def cropUrlMapOf (cropsMeta : List CropMeta) (filename : String) :
    Option String :=
  (cropsMeta.reverse.find? (fun c => c.filename = filename)).map
    (fun c => c.cropSignedUrl)

/-- One fold step of the retry-batch construction: deduplicate by
correlation id, then resolve the image url as
`cropUrlMap[filename] || expectedMap.get(customId)?.url`, skipping items
without a resolvable (truthy) url. -/
def buildRetryStep (cropsMeta : List CropMeta)
    (expected : List ExpectedEntry) (acc : List String × List RetryLine)
    (item : RetryItem) : List String × List RetryLine :=
  if acc.1.contains item.customId then acc
  else
    let seenRetry := item.customId :: acc.1
    let fromMap := cropUrlMapOf cropsMeta item.filename
    let fromExpected :=
      (expected.find? (fun e => e.customId = item.customId)).map
        (fun e => e.url)
    let imageUrl : Option String :=
      match fromMap with
      | some u => if u ≠ "" then some u else fromExpected
      | none => fromExpected
    match imageUrl with
    | some u =>
        if u ≠ "" then
          (seenRetry, acc.2 ++ [({ customId := item.customId, url := u } :
            RetryLine)])
        else (seenRetry, acc.2)
    | none => (seenRetry, acc.2)

/-- The retry batch's request lines: retry items deduplicated by correlation
id, skipping items without a resolvable (truthy) image url. -/
def buildRetryLines (cropsMeta : List CropMeta)
    (expected : List ExpectedEntry) (items : List RetryItem) :
    List RetryLine :=
  (items.foldl (buildRetryStep cropsMeta expected)
    (([] : List String), ([] : List RetryLine))).2

/-- The bounded poll of the supplementary retry batch (`waitSimple`): at most
120 attempts, success on `completed` with a truthy output file id, throw on
`failed`/`cancelled`, timeout error otherwise. -/
def waitSimpleGo (statuses : Nat → BatchStatusRead) :
    Nat → Nat → Except SaveError String
  | 0, _ => .error .retryTimeout
  | fuel + 1, attempt =>
    let latest := statuses attempt
    if latest.status = "completed" ∧ latest.outputFileId.getD "" ≠ "" then
      .ok (latest.outputFileId.getD "")
    else if latest.status = "failed" ∨ latest.status = "cancelled" then
      .error (.retryFailed latest.status)
    else waitSimpleGo statuses fuel (attempt + 1)

/-- The 120-attempt bounded poll of the supplementary retry batch. -/
def waitSimple (statuses : Nat → BatchStatusRead) : Except SaveError String :=
  waitSimpleGo statuses 120 0

/-- Processing of one retry output line: undecodable and error lines are
skipped; a successful line updates the existing frame with the same (index,
filename) in place, or appends (and counts) a new frame. -/
def processRetryLine (jobId : String) (decode : String → Option LineRecord)
    (st : MainState) (line : String) : MainState :=
  match decode line with
  | none => st
  | some rec =>
    if rec.error then st
    else
      match rec.custom_id with
      | none => st
      | some cid =>
          match parseCustomId cid with
          | none => st
          | some fi =>
              let text := extractTextFromCompletion rec.content
              let finalText := if text = "" ∨ text = "<EMPTY>" then "" else text
              match st.frames.findIdx?
                  (fun f => f.index = fi.2 ∧ f.filename = fi.1) with
              | some i =>
                  match st.frames.get? i with
                  | some f =>
                      { st with frames :=
                          st.frames.set i ({ f with text := finalText }) }
                  | none => st
              | none =>
                  { st with
                    frames := st.frames ++
                      [{ jobId := jobId, filename := fi.1
                         baseKey := getBaseKeyFromFilename fi.1
                         index := fi.2, text := finalText }]
                    count := st.count + 1 }

/-- The supplementary-retry phase of `saveBatchResults`: when the
failed/missing union is non-empty, build and submit the retry batch (the
request lines are `buildRetryLines`, exposed via `retrySubmissionOf`), poll
it with `waitSimple`, and fold its output lines over the provisional state. -/
def retryPhase (jobId : String) (decode : String → Option LineRecord)
    (cropsMeta : List CropMeta) (retryStatuses : Nat → BatchStatusRead)
    (fileContent : String → String) (st : MainState) :
    Except SaveError MainState :=
  if (retryItemsOf (expectedEntries jobId cropsMeta) st).isEmpty then .ok st
  else
    match waitSimple retryStatuses with
    | .error e => .error e
    | .ok retryOutputFileId =>
        .ok ((nonblankLines (fileContent retryOutputFileId)).foldl
          (processRetryLine jobId decode) st)

/-- The strict consistency check and bulk persist ending `saveBatchResults`. -/
def finalizeSave (totalImages batchCount : Nat) (st : MainState) :
    Except SaveError (List Frame × Nat) :=
  if totalImages > 0 ∧ st.count ≠ totalImages then
    .error (.mismatch totalImages st.count batchCount)
  else if st.frames.isEmpty then .error (.noFrames batchCount)
  else .ok (st.frames, st.count)

/-- `saveBatchResults`: parse every batch output, classify failed/missing
items, run the single supplementary retry when that set is non-empty, then
enforce the strict count check before persisting (bulk delete-then-insert).
`decode` models `JSON.parse` plus the expected line shape; `retryStatuses`
the provider's status answers for the retry batch; `fileContent` maps an
output file id to its content. Returns the frames persisted and the
processed line count. -/
def saveBatchResults (jobId : String) (processedBatches : List ProcessedBatch)
    (totalImages : Nat) (decode : String → Option LineRecord)
    (cropsMeta : List CropMeta) (retryStatuses : Nat → BatchStatusRead)
    (fileContent : String → String) :
    Except SaveError (List Frame × Nat) :=
  match processedBatches.foldlM (processBatchOutput jobId decode)
      (⟨[], 0, [], []⟩ : MainState) with
  | .error e => .error e
  | .ok st =>
    match retryPhase jobId decode cropsMeta retryStatuses fileContent st with
    | .error e => .error e
    | .ok st2 => finalizeSave totalImages processedBatches.length st2

/-- Whether the single supplementary retry batch is submitted, and with which
request lines: exactly when the failed/missing union is non-empty after the
main pass succeeds. -/
def retrySubmissionOf (jobId : String)
    (processedBatches : List ProcessedBatch)
    (decode : String → Option LineRecord) (cropsMeta : List CropMeta) :
    Option (List RetryLine) :=
  let expected := expectedEntries jobId cropsMeta
  match processedBatches.foldlM (processBatchOutput jobId decode)
      (⟨[], 0, [], []⟩ : MainState) with
  | .error _ => none
  | .ok st =>
      let retryItems := retryItemsOf expected st
      if retryItems.isEmpty then none
      else some (buildRetryLines cropsMeta expected retryItems)

/-! ### Job-row writes of the pipeline (processOcrJob orchestration)

A fresh (non-replayed) execution of `processOcrJob` is modelled as the
sequence of updates it issues against the job row, with the stage results
supplied as scenario parameters (the stages themselves are modelled above).
Only the `step`/`status`/`error` fields are tracked; progress-counter-only
updates appear as writes with all three fields absent. -/

inductive JobStep where
  | PREPROCESSING
  | BATCH_SUBMITTED
  | RESULTS_SAVED
  | DOCS_BUILT
deriving Repr, DecidableEq

inductive JobsStatus where
  | PENDING
  | PROCESSING
  | DONE
  | ERROR
deriving Repr, DecidableEq

structure JobWrite where
  step : Option JobStep
  status : Option JobsStatus
  errorWritten : Bool
deriving Repr, DecidableEq

/-- The catch-handler write: `status = ERROR` plus the error message, no
`step` field. -/
def errWrite : JobWrite := ⟨none, some .ERROR, true⟩

/-- A progress-counter-only `persistProgress` / batch-id update. -/
def progressWrite : JobWrite := ⟨none, none, false⟩

/-- `persistProgress` with `step: PREPROCESSING, status: PROCESSING`. -/
def preprocessingWrite : JobWrite := ⟨some .PREPROCESSING, some .PROCESSING, false⟩

/-- `persistProgress` with `step: BATCH_SUBMITTED, status: PROCESSING`. -/
def batchSubmittedWrite : JobWrite := ⟨some .BATCH_SUBMITTED, some .PROCESSING, false⟩

/-- The step-only update to `RESULTS_SAVED` (issued before the reconciler
runs, and again by `persistProgress` after it). -/
def resultsSavedWrite : JobWrite := ⟨some .RESULTS_SAVED, none, false⟩

/-- The step-only update to `DOCS_BUILT` issued inside `saveBatchResults`. -/
def docsBuiltWrite : JobWrite := ⟨some .DOCS_BUILT, none, false⟩

/-- `buildDocuments`' update: `status: DONE` plus document pointers. -/
def doneWrite : JobWrite := ⟨none, some .DONE, false⟩

/-- The final update: `step: DOCS_BUILT, status: DONE`. -/
def finalWrite : JobWrite := ⟨some .DOCS_BUILT, some .DONE, false⟩

/-- Progress writes of the preprocessing callback: two per 50 processed
entries (the callback block is duplicated in the source) plus the final
call. -/
def streamCallbackWrites (total : Nat) : List JobWrite :=
  List.replicate (2 * (total / 50) + 1) preprocessingWrite

/-- Writes of the sequential batch loop (no size reduction in scenario):
per accepted batch, the submitted-images update, the batches-completed
update and the batch-ids update; a batch whose poll reports
`failed`/`cancelled` throws after the submitted-images update. Returns the
writes and whether all batches completed. -/
def runBatches : (remaining k : Nat) → (pollFailsAt : Option Nat) →
    List JobWrite × Bool
  | 0, _, _ => ([], true)
  | r + 1, k, pollFailsAt =>
    if pollFailsAt = some k then ([progressWrite], false)
    else
      let rest := runBatches r (k + 1) pollFailsAt
      (progressWrite :: progressWrite :: progressWrite :: rest.1, rest.2)

structure JobRow where
  step : JobStep
  txtPath : Option String
  docxPath : Option String
deriving Repr, DecidableEq

structure PipelineScenario where
  job : JobRow
  userIdPresent : Bool
  jobFound : Bool
  zipKeyPresent : Bool
  streamTotal : Nat
  cropsMetaExists : Bool
  cropsMetaLen : Nat
  numBatches : Nat
  pollFailsAt : Option Nat
  saveResult : Option SaveError
  buildFails : Bool
deriving Repr

/-- The job-row writes of one fresh `processOcrJob` execution. -/
def processOcrJobWrites (s : PipelineScenario) : List JobWrite :=
  if !s.userIdPresent then [errWrite]
  else if !s.jobFound then []
  else if !s.zipKeyPresent then []
  else if (s.job.step = .DOCS_BUILT ∨ s.job.step = .RESULTS_SAVED) ∧
      s.job.txtPath.isSome ∧ s.job.docxPath.isSome then []
  else
    let pre := preprocessingWrite :: streamCallbackWrites s.streamTotal ++
      [batchSubmittedWrite]
    if !s.cropsMetaExists then pre
    else if s.cropsMetaLen = 0 then pre ++ [errWrite]
    else
      let batches := runBatches s.numBatches 0 s.pollFailsAt
      let upToBatches := pre ++ [progressWrite] ++ batches.1
      if !batches.2 then upToBatches ++ [errWrite]
      else
        let upToSave := upToBatches ++ [resultsSavedWrite]
        match s.saveResult with
        | some _ => upToSave ++ [errWrite]
        | none =>
            let afterSave := upToSave ++ [docsBuiltWrite, resultsSavedWrite]
            if s.buildFails then afterSave ++ [errWrite]
            else afterSave ++ [doneWrite, finalWrite]

/-- The sequence of values written to the `step` column. -/
def stepWrites (ws : List JobWrite) : List JobStep :=
  ws.filterMap (fun w => w.step)

def stepRank : JobStep → Nat
  | .PREPROCESSING => 0
  | .BATCH_SUBMITTED => 1
  | .RESULTS_SAVED => 2
  | .DOCS_BUILT => 3

/-- Whether a sequence of step writes only moves forward. -/
def stepsNondecreasing : List JobStep → Bool
  | [] => true
  | [_] => true
  | a :: b :: rest =>
      decide (stepRank a ≤ stepRank b) && stepsNondecreasing (b :: rest)

/-! ### Derived views used by the verification -/

/-- The id under which a decoded line is tallied by the main pass: its
correlation id, when present and parseable. -/
def countedId (rec : LineRecord) : Option String :=
  rec.custom_id.bind (fun cid =>
    if (parseCustomId cid).isSome then some cid else none)

/-- The id under which a retry output line can append a frame: as
`countedId`, but error lines are skipped. -/
def successCountedId (rec : LineRecord) : Option String :=
  if rec.error then none else countedId rec

/-- All tallied correlation ids across the main batch outputs, in order. -/
def countedIdsOf (decode : String → Option LineRecord)
    (batches : List ProcessedBatch) : List String :=
  (batches.flatMap (fun pb => nonblankLines pb.output)).filterMap
    (fun l => (decode l).bind countedId)

/-- All appendable correlation ids across the retry output lines. -/
def successCountedIdsOf (decode : String → Option LineRecord)
    (lines : List String) : List String :=
  lines.filterMap (fun l => (decode l).bind successCountedId)

/-- The (index, filename) pair a correlation id resolves to. -/
def cidPair (cid : String) : Nat × String :=
  match parseCustomId cid with
  | some fi => (fi.2, fi.1)
  | none => (0, "")

/-- The (index, filename) key of a frame row. -/
def framePair (f : Frame) : Nat × String := (f.index, f.filename)

/-! ### Concrete scenarios -/

/-- Capacity oracle rejecting exactly the first `batches.create` call. -/
def rejectFirstCall : Nat → Bool := fun n => n == 0

/-- Capacity oracle that never rejects. -/
def noReject : Nat → Bool := fun _ => false

/-- 520 abstract work items (spec §8.3's adaptive-sizing scenario). -/
def c4Items : List Nat := List.range 520

/-- 401-crop manifest triggering one size reduction. -/
def c5Crops : List CropMeta :=
  (List.range 401).map (fun i =>
    { filename := toString i ++ ".png", cropKey := "k" ++ toString i
      cropSignedUrl := "u" ++ toString i })

/-- Two-crop manifest for the reconciliation scenarios. -/
def dupCrops : List CropMeta :=
  [⟨"1.png", "k1", "u1"⟩, ⟨"2.png", "k2", "u2"⟩]

def dupId0 : String := mkCustomId "J" 0 0 "1.png"

def dupId1 : String := mkCustomId "J" 0 1 "2.png"

/-- Decoder for the reconciliation scenarios: line `"A"` echoes the first
item's id, line `"B"` the second's. -/
def dupDecode : String → Option LineRecord := fun s =>
  if s = "A" then some ⟨some dupId0, false, some (.str "hello")⟩
  else if s = "B" then some ⟨some dupId1, false, some (.str "world")⟩
  else none

/-- Retry-batch status oracle: completed immediately. -/
def retryCompleted : Nat → BatchStatusRead := fun _ =>
  ⟨"completed", some "retry-out"⟩

/-- Output-file contents: every file is empty. -/
def emptyFileContent : String → String := fun _ => ""

/-- A single batch output echoing the first item's id twice. -/
def dupBatches : List ProcessedBatch := [⟨0, "A\nA"⟩]

/-- A single batch output echoing each item's id once. -/
def cleanBatches : List ProcessedBatch := [⟨0, "A\nB"⟩]

/-- A batch output echoing only the first item's id. -/
def shortBatches : List ProcessedBatch := [⟨0, "A"⟩]

/-- Batches whose second output file has only blank lines. -/
def blankSecondBatches : List ProcessedBatch := [⟨0, "A\nB"⟩, ⟨7, "  \n \n"⟩]

/-- The paragraph-assembly frames of spec §8.7. -/
def c2Frames : List Frame :=
  [⟨"J", "1.png", "1", 0, "a"⟩, ⟨"J", "1-1.png", "1", 1, "b"⟩,
   ⟨"J", "2.png", "2", 2, ""⟩]

/-- The same frames with the last one non-empty. -/
def c2FramesB : List Frame :=
  [⟨"J", "1.png", "1", 0, "a"⟩, ⟨"J", "1-1.png", "1", 1, "b"⟩,
   ⟨"J", "2.png", "2", 2, "c"⟩]

/-- The archive-entry names of spec §8.1. -/
def c3Entries : List ZipEntry :=
  [⟨"3.png", false⟩, ⟨"3-1.png", false⟩, ⟨"03.jpg", false⟩,
   ⟨"__MACOSX/3.png", false⟩, ⟨"._3.png", false⟩, ⟨"abc.png", false⟩]

/-- A fresh, fully successful pipeline run: 10 images, one batch,
reconciliation and document build succeed. -/
def c7OkScenario : PipelineScenario :=
  { job := ⟨.PREPROCESSING, none, none⟩, userIdPresent := true
    jobFound := true, zipKeyPresent := true, streamTotal := 10
    cropsMetaExists := true, cropsMetaLen := 10, numBatches := 1
    pollFailsAt := none, saveResult := none, buildFails := false }

/-- The same run, but reconciliation throws its mismatch error. -/
def c7SaveFailScenario : PipelineScenario :=
  { c7OkScenario with saveResult := some (.mismatch 10 9 1) }

/-- Status oracle for the poll witness: two in-progress reads, then
completed with an output file. -/
def c8Statuses : Nat → BatchStatusRead := fun i =>
  if i < 2 then ⟨"in_progress", none⟩ else ⟨"completed", some "out-file"⟩

/-- The batches the loop submits from chunk `bi` onwards when no size
reduction occurs: chunk `j` gets batch ordinal `bi + j` and the running
global start index. -/
def submittedBatchesFrom (bi start : Nat) :
    List (List α) → List (SubmittedBatch α)
  | [] => []
  | c :: cs =>
      ⟨bi, start, c⟩ :: submittedBatchesFrom (bi + 1) (start + c.length) cs

/-- The correlation ids of one batch, written out recursively. -/
def idsFrom (jobId : String) (bi : Nat) : Nat → List CropMeta → List String
  | _, [] => []
  | g, c :: rest =>
      mkCustomId jobId bi g c.filename :: idsFrom jobId bi (g + 1) rest

/-- The expected correlation ids from global index `g` onwards, written out
recursively. -/
def expectedIdsFrom (jobId : String) : Nat → List CropMeta → List String
  | _, [] => []
  | g, c :: rest =>
      mkCustomId jobId (g / BATCH_SIZE) g c.filename ::
        expectedIdsFrom jobId (g + 1) rest

/-- The final submitter state of the 401-crop capacity-rejection scenario
(the provider token-limit-rejects the very first `batches.create` call). -/
def c5LoopState : SubmitState CropMeta :=
  match submitLoop c5Crops rejectFirstCall 4 with
  | .ok st => st
  | .error _ => ⟨[], 0, 0, 0, 0, 0, [], 0⟩

/-- The final submitter state of the rejection-free two-crop run. -/
def c5WitnessLoopState : SubmitState CropMeta :=
  match submitLoop dupCrops noReject 2 with
  | .ok st => st
  | .error _ => ⟨[], 0, 0, 0, 0, 0, [], 0⟩

/-! ## Theorems -/

/-- C9: the work-item list is ordered by the natural comparator — digit runs
compare as numbers, non-digit runs as case-folded strings, ties broken by
raw lexical comparison — so `["10.png","2.png","1-1.png","1.png"]` sorts to
`["1.png","1-1.png","2.png","10.png"]`, frame 10 sorts after 9 and before
11, digit runs beat case differences, and case-folded ties fall back to the
raw filenames. -/
theorem c9_natural_sort :
    sortCropFilenames ["10.png", "2.png", "1-1.png", "1.png"] =
      ["1.png", "1-1.png", "2.png", "10.png"] ∧
    compareImageFilenames "9.png" "10.png" < 0 ∧
    compareImageFilenames "10.png" "11.png" < 0 ∧
    compareImageFilenames "abc9.png" "Abc10.png" < 0 ∧
    compareImageFilenames "a.png" "A.png" = 0 ∧
    sortCropFilenames ["a.png", "A.png"] = ["A.png", "a.png"] := by
  decide

/-- C3 counterexample: the streaming loop performs no duplicate suppression
on base keys — for the §8.1 entry list, the colliding pure-integer entries
`"3.png"` and `"03.jpg"` are BOTH appended to the filtered archive (as
`"3.png"` and `"3.jpg"`), not just the first-encountered one. -/
theorem c3_duplicate_basekey_counterexample :
    archiveNames c3Entries = ["3.png", "3.jpg"] ∧
    archiveNames c3Entries ≠ ["3.png"] := by
  decide

/-- C3 (amended): for the §8.1 entries, exactly `"3.png"`, `"3-1.png"` and
`"03.jpg"` are processable (all with base key `"3"`); only the pure-integer
names are archive-includable, `"3-1.png"` is recognized but not
archive-included, the macOS/AppleDouble/non-digit entries are dropped; and
when two pure-integer entries collide on a base key, both are included in
the filtered archive (no first-seen-wins suppression on this path). -/
theorem c3_filename_filtering :
    (processableResults c3Entries).map
      (fun p => (p.originalName, p.baseName, p.shouldIncludeInZip)) =
      [("3.png", "3", true), ("3-1.png", "3", false), ("03.jpg", "3", true)] ∧
    archiveNames c3Entries = ["3.png", "3.jpg"] ∧
    cropFilenames c3Entries = ["3.png", "3-1.png", "03.png"] := by
  decide

/-- C2 counterexample: the paragraph builder skips frames whose trimmed text
is empty, so the group with base key `"2"` (whose only frame has empty text)
yields no paragraph: the §8.7 frames produce `["a b"]`, not `["a b", ""]`. -/
theorem c2_empty_group_counterexample :
    buildParagraphsFromFrames c2Frames = ["a b"] ∧
    buildParagraphsFromFrames c2Frames ≠ ["a b", ""] := by
  decide

set_option maxRecDepth 10000 in
/-- C4: for 520 work items at starting size 500 with a capacity rejection on
the first submission attempt, the code resubmits the truncated 400-item
chunk and re-partitions the remaining 120 items (totalBatches becomes 2) —
but the `splice` replaces the slot of the chunk that was just submitted, so
after the loop advances only the single 400-item batch was ever submitted:
the 120 re-partitioned items are never sent (and the submitted-images
counter increases by 120, the post-splice chunk length, instead of 400).
The spec's intended outcome (one 400 batch, then one 120 batch) does not
happen. -/
theorem c4_rechunk_drops_items :
    (submitLoop c4Items rejectFirstCall 100).toOption.map
      (fun st =>
        (st.submitted.map (fun b => (b.batchIndex, b.globalStartIndex,
            b.chunk.length)),
         st.submittedImages, st.totalBatches)) =
      some ([(0, 0, 400)], 120, 2) ∧
    (submitLoop c4Items rejectFirstCall 100).toOption.map
      (fun st => (st.submitted.map (fun b => b.chunk)).flatten) =
      some (List.range 400) ∧
    c4Items.length = 520 := by
  decide

/-- C7 counterexample: even a fresh, fully successful run writes the `step`
column in the order PREPROCESSING, PREPROCESSING, BATCH_SUBMITTED,
RESULTS_SAVED, DOCS_BUILT, RESULTS_SAVED, DOCS_BUILT — the reconciler sets
DOCS_BUILT and the subsequent progress write regresses to RESULTS_SAVED, so
the persisted step does not advance monotonically. -/
theorem c7_step_regression_counterexample :
    stepWrites (processOcrJobWrites c7OkScenario) =
      [.PREPROCESSING, .PREPROCESSING, .BATCH_SUBMITTED, .RESULTS_SAVED,
       .DOCS_BUILT, .RESULTS_SAVED, .DOCS_BUILT] ∧
    stepsNondecreasing (stepWrites (processOcrJobWrites c7OkScenario)) =
      false := by
  decide

/-! ### Helper lemmas for the paragraph builder -/

theorem stableInsert_perm (le : α → α → Bool) (a : α) (l : List α) :
    (stableInsert le a l).Perm (a :: l) := by
  induction l with
  | nil => simp [stableInsert]
  | cons b bs ih =>
      simp only [stableInsert]
      split
      · exact (ih.cons b).trans (List.Perm.swap a b bs)
      · exact List.Perm.refl _

theorem stableSort_foldl_perm (le : α → α → Bool) (l acc : List α) :
    (l.foldl (fun acc x => stableInsert le x acc) acc).Perm (acc ++ l) := by
  induction l generalizing acc with
  | nil => simp
  | cons x xs ih =>
      simp only [List.foldl_cons]
      refine (ih (stableInsert le x acc)).trans ?_
      have h1 : (stableInsert le x acc ++ xs).Perm ((x :: acc) ++ xs) :=
        (stableInsert_perm le x acc).append_right xs
      refine h1.trans ?_
      simpa using List.perm_middle.symm

theorem stableSort_perm (le : α → α → Bool) (l : List α) :
    (stableSort le l).Perm l := by
  simpa using stableSort_foldl_perm le l []

theorem groupStep_good (acc : List (String × List Frame)) (frame : Frame)
    (hacc : ∀ kb ∈ acc, kb.2 ≠ [] ∧ ∀ f ∈ kb.2, f.text ≠ "") :
    ∀ kb ∈ groupStep acc frame, kb.2 ≠ [] ∧ ∀ f ∈ kb.2, f.text ≠ "" := by
  intro kb hkb
  unfold groupStep at hkb
  by_cases hempty : strTrim frame.text = ""
  · simp only [hempty, if_pos rfl] at hkb
    exact hacc kb hkb
  · simp only [if_neg hempty] at hkb
    split at hkb
    · split at hkb
      · rename_i kbOld hget
        have hkbOld := hacc kbOld (List.get?_mem hget)
        rcases List.mem_or_eq_of_mem_set hkb with h | h
        · exact hacc kb h
        · subst h
          refine ⟨by simp, ?_⟩
          intro f hf
          rcases List.mem_append.mp hf with h | h
          · exact hkbOld.2 f h
          · rcases List.mem_singleton.mp h with rfl
            simpa using hempty
      · exact hacc kb hkb
    · rcases List.mem_append.mp hkb with h | h
      · exact hacc kb h
      · rcases List.mem_singleton.mp h with rfl
        refine ⟨by simp, ?_⟩
        intro f hf
        rcases List.mem_singleton.mp hf with rfl
        simpa using hempty

theorem groupFrames_good (frames : List Frame) :
    ∀ kb ∈ groupFrames frames, kb.2 ≠ [] ∧ ∀ f ∈ kb.2, f.text ≠ "" := by
  unfold groupFrames
  generalize hacc : ([] : List (String × List Frame)) = acc
  have h0 : ∀ kb ∈ acc, kb.2 ≠ [] ∧ ∀ f ∈ kb.2, f.text ≠ "" := by
    intro kb hkb; rw [← hacc] at hkb; simp at hkb
  clear hacc
  induction frames generalizing acc with
  | nil => simpa using h0
  | cons fr rest ih =>
      simp only [List.foldl_cons]
      exact ih (groupStep acc fr) (groupStep_good acc fr h0)

theorem strJoinSep_space_ne_empty (ts : List String) (hne : ts ≠ [])
    (hall : ∀ t ∈ ts, t ≠ "") : strJoinSep " " ts ≠ "" := by
  match ts with
  | [t] =>
      simpa [strJoinSep] using hall t (by simp)
  | t :: r :: rs =>
      intro he
      have hd := congrArg String.data he
      simp only [strJoinSep, String.data_append] at hd
      rcases List.append_eq_nil.mp hd with ⟨hd1, hd2⟩
      rcases List.append_eq_nil.mp hd1 with ⟨-, hsp⟩
      simp at hsp

theorem buildParagraphs_ne_empty (frames : List Frame) :
    ∀ p ∈ buildParagraphsFromFrames frames, p ≠ "" := by
  intro p hp
  unfold buildParagraphsFromFrames at hp
  split at hp
  · simp at hp
  · simp only [List.mem_map] at hp
    obtain ⟨key, hkey, rfl⟩ := hp
    have hkeymem : key ∈ (groupFrames frames).map (fun kb => kb.1) :=
      ((stableSort_perm _ _).mem_iff).mp hkey
    rcases hfind : (groupFrames frames).find? (fun kb => kb.1 = key) with _ | kb
    · exfalso
      rcases List.mem_map.mp hkeymem with ⟨kb, hkb, hkb1⟩
      have := List.find?_eq_none.mp hfind kb hkb
      simp [hkb1] at this
    · rw [hfind]
      have hmem := List.mem_of_find?_eq_some hfind
      have hgood := groupFrames_good frames kb hmem
      have hbne : (stableSort (fun a b => a.index ≤ b.index) kb.2).map
          (fun f => f.text) ≠ [] := by
        intro h
        have hlen := congrArg List.length h
        simp [(stableSort_perm (fun a b : Frame => a.index ≤ b.index)
          kb.2).length_eq] at hlen
        exact hgood.1 hlen
      have hallne : ∀ t ∈ (stableSort (fun a b => a.index ≤ b.index) kb.2).map
          (fun f => f.text), t ≠ "" := by
        intro t ht
        rcases List.mem_map.mp ht with ⟨f, hf, rfl⟩
        exact hgood.2 f ((stableSort_perm _ _).mem_iff.mp hf)
      exact strJoinSep_space_ne_empty _ hbne hallne

/-- C2 (amended): the document assembler groups frames by base key (falling
back to a filename-derived key when the stored key is blank), SKIPS frames
whose trimmed text is empty, orders groups by the numeric-first key
comparator and frames within a group by index, and joins one group's texts
with single spaces — so a group whose every frame text is empty yields no
paragraph at all and no paragraph is ever the empty string. The §8.7 frames
produce `["a b"]` (plain text `"a b"`), and when the third frame has text
`"c"` the result is `["a b", "c"]` rendered with exactly one blank line
between paragraphs. -/
theorem c2_paragraph_assembly :
    buildParagraphsFromFrames c2Frames = ["a b"] ∧
    txtContentOf (buildParagraphsFromFrames c2Frames) = "a b" ∧
    buildParagraphsFromFrames c2FramesB = ["a b", "c"] ∧
    txtContentOf (buildParagraphsFromFrames c2FramesB) = "a b\n\nc" ∧
    ∀ frames : List Frame, ∀ p ∈ buildParagraphsFromFrames frames, p ≠ "" :=
  ⟨by decide, by decide, by decide, by decide, buildParagraphs_ne_empty⟩

/-- Witness for `c2_paragraph_assembly` at a concrete input. -/
theorem c2_paragraph_assembly_witness :
    "a b" ∈ buildParagraphsFromFrames c2Frames ∧ "a b" ≠ "" :=
  ⟨by decide, c2_paragraph_assembly.2.2.2.2 c2Frames "a b" (by decide)⟩

/-! ### Helper lemmas for the completion poller -/

theorem pollBatch_skip (statuses : Nat → BatchStatusRead) (fuel a : Nat)
    (h : isInFlightStatus (statuses a).status = true) :
    pollBatch statuses (fuel + 1) a = pollBatch statuses fuel (a + 1) := by
  simp only [isInFlightStatus, Bool.or_eq_true, decide_eq_true_eq] at h
  simp only [pollBatch]
  rcases h with (h1 | h1) | h1 <;> rw [h1] <;>
    rw [if_neg (fun hc => absurd hc.1 (by decide)), if_neg (by decide)]

theorem pollBatch_polling (statuses : Nat → BatchStatusRead) :
    ∀ fuel a, (∀ i, i < fuel → isInFlightStatus (statuses (a + i)).status = true) →
    pollBatch statuses fuel a = .polling := by
  intro fuel
  induction fuel with
  | zero => intro a _; rfl
  | succ f ih =>
      intro a h
      rw [pollBatch_skip statuses f a (by simpa using h 0 (Nat.succ_pos f))]
      exact ih (a + 1) (fun i hi => by
        have := h (i + 1) (Nat.succ_lt_succ hi)
        simpa [Nat.add_assoc, Nat.add_comm 1 i] using this)

theorem pollBatch_reaches (statuses : Nat → BatchStatusRead) :
    ∀ (k fuel a : Nat),
    (∀ i, i < k → isInFlightStatus (statuses (a + i)).status = true) →
    isTerminalStatus (statuses (a + k)).status = true →
    ((statuses (a + k)).status = "completed" →
      (statuses (a + k)).outputFileId.getD "" ≠ "") →
    k < fuel →
    pollBatch statuses fuel a =
      (if (statuses (a + k)).status = "completed" then
        .completed ((statuses (a + k)).outputFileId.getD "")
      else .failed (statuses (a + k)).status) := by
  intro k
  induction k with
  | zero =>
      intro fuel a _ hterm hout hfuel
      obtain ⟨f, rfl⟩ : ∃ f, fuel = f + 1 := ⟨fuel - 1, by omega⟩
      simp only [Nat.add_zero] at hterm hout ⊢
      simp only [isTerminalStatus, Bool.or_eq_true, decide_eq_true_eq] at hterm
      simp only [pollBatch]
      rcases hterm with (h1 | h1) | h1 <;> rw [h1]
      · rw [if_pos ⟨rfl, hout h1⟩, if_pos rfl]
      · rw [if_neg (fun hc => absurd hc.1 (by decide)),
          if_pos (Or.inl rfl), if_neg (by decide)]
      · rw [if_neg (fun hc => absurd hc.1 (by decide)),
          if_pos (Or.inr rfl), if_neg (by decide)]
  | succ j ih =>
      intro fuel a hpre hterm hout hfuel
      obtain ⟨f, rfl⟩ : ∃ f, fuel = f + 1 := ⟨fuel - 1, by omega⟩
      rw [pollBatch_skip statuses f a (by simpa using hpre 0 (Nat.succ_pos j))]
      have heq : a + (j + 1) = (a + 1) + j := by omega
      rw [heq] at hterm hout ⊢
      exact ih f (a + 1)
        (fun i hi => by
          have := hpre (i + 1) (Nat.succ_lt_succ hi)
          simpa [Nat.add_assoc, Nat.add_comm 1 i] using this)
        hterm hout (by omega)

/-- C8: the per-batch polling loop terminates exactly at the first terminal
provider state: while the reported status stays in the
queued/validating/in-progress family it keeps sleeping and re-polling (the
loop is still running after any number of such reads), when the batch
reports `completed` (which per §6 carries an output pointer) it returns
that pointer, and when it reports `failed` or `cancelled` it throws,
failing the job. -/
theorem c8_poll_terminal (statuses : Nat → BatchStatusRead) (k fuel : Nat)
    (hpre : ∀ i, i < k → isInFlightStatus (statuses i).status = true)
    (hterm : isTerminalStatus (statuses k).status = true)
    (hout : (statuses k).status = "completed" →
      (statuses k).outputFileId.getD "" ≠ "")
    (hfuel : k < fuel) :
    (pollBatch statuses fuel 0 =
      if (statuses k).status = "completed" then
        .completed ((statuses k).outputFileId.getD "")
      else .failed (statuses k).status) ∧
    ∀ fuel2, (∀ i, i < fuel2 → isInFlightStatus (statuses i).status = true) →
      pollBatch statuses fuel2 0 = .polling := by
  constructor
  · have h := pollBatch_reaches statuses k fuel 0
      (fun i hi => by simpa using hpre i hi) (by simpa using hterm)
      (by simpa using hout) hfuel
    simpa using h
  · intro fuel2 h2
    exact pollBatch_polling statuses fuel2 0 (fun i hi => by simpa using h2 i hi)

/-- Witness for `c8_poll_terminal`: two in-progress reads then completion. -/
theorem c8_poll_terminal_witness :
    pollBatch c8Statuses 5 0 = .completed "out-file" := by
  have h := c8_poll_terminal c8Statuses 2 5
    (fun i hi => by interval_cases i <;> decide)
    (by decide) (fun _ => by decide) (by decide)
  rw [h.1]
  decide

/-! ### Helper lemmas for the reconciler -/

theorem foldlM_except_preserve {σ α ε : Type} (f : σ → α → Except ε σ)
    (P : σ → Prop) (hf : ∀ s a s2, P s → f s a = .ok s2 → P s2) :
    ∀ (l : List α) (s s2 : σ), P s → l.foldlM f s = .ok s2 → P s2 := by
  intro l
  induction l with
  | nil =>
      intro s s2 hs h
      rw [List.foldlM_nil] at h
      cases h
      exact hs
  | cons x xs ih =>
      intro s s2 hs h
      rw [List.foldlM_cons] at h
      rcases hx : f s x with e | s1 <;> rw [hx] at h
      · cases h
      · exact ih s1 s2 (hf s x s1 hs hx) h

theorem processLines_foldlM_ok (jobId : String)
    (decode : String → Option LineRecord) (bi : Nat) :
    ∀ (lines : List String) (st : MainState),
    (∀ l ∈ lines, (decode l).isSome = true) →
    ∃ st2, lines.foldlM (fun st line =>
      match decode line with
      | none => Except.error (SaveError.invalidJson bi)
      | some rec => Except.ok (processLine jobId st rec)) st =
        Except.ok st2 := by
  intro lines
  induction lines with
  | nil => intro st _; exact ⟨st, rfl⟩
  | cons l ls ih =>
      intro st hdec
      have hl := hdec l (by simp)
      rcases hsome : decode l with _ | rec
      · rw [hsome] at hl; simp at hl
      · rw [List.foldlM_cons, hsome]
        exact ih (processLine jobId st rec) (fun x hx => hdec x (by simp [hx]))

theorem processBatchOutput_ok (jobId : String)
    (decode : String → Option LineRecord) (st : MainState)
    (pb : ProcessedBatch) (hne : nonblankLines pb.output ≠ [])
    (hdec : ∀ l ∈ nonblankLines pb.output, (decode l).isSome = true) :
    ∃ st2, processBatchOutput jobId decode st pb = .ok st2 := by
  unfold processBatchOutput
  rw [if_neg hne]
  exact processLines_foldlM_ok jobId decode pb.batchIndex _ st hdec

theorem mainFold_ok_of_decodable (jobId : String)
    (decode : String → Option LineRecord) :
    ∀ (batches : List ProcessedBatch) (st : MainState),
    (∀ q ∈ batches, nonblankLines q.output ≠ [] ∧
      ∀ l ∈ nonblankLines q.output, (decode l).isSome = true) →
    ∃ st2, batches.foldlM (processBatchOutput jobId decode) st = .ok st2 := by
  intro batches
  induction batches with
  | nil => intro st _; exact ⟨st, rfl⟩
  | cons q qs ih =>
      intro st hall
      have hq := hall q (by simp)
      obtain ⟨st1, hst1⟩ := processBatchOutput_ok jobId decode st q hq.1 hq.2
      rw [List.foldlM_cons, hst1]
      exact ih st1 (fun x hx => hall x (by simp [hx]))

/-- C10: if any completed batch's output file contains zero non-empty lines,
the reconciler throws instead of treating the batch as contributing zero
frames — and when every earlier batch output is non-empty and decodable,
the error is exactly the empty-output error identifying that batch. -/
theorem c10_empty_batch_output (jobId : String) (totalImages : Nat)
    (decode : String → Option LineRecord) (cropsMeta : List CropMeta)
    (retryStatuses : Nat → BatchStatusRead) (fileContent : String → String)
    (pre post : List ProcessedBatch) (pb : ProcessedBatch)
    (hempty : nonblankLines pb.output = [])
    (hpre : ∀ q ∈ pre, nonblankLines q.output ≠ [] ∧
      ∀ l ∈ nonblankLines q.output, (decode l).isSome = true) :
    saveBatchResults jobId (pre ++ pb :: post) totalImages decode cropsMeta
      retryStatuses fileContent = .error (.emptyBatch pb.batchIndex) := by
  obtain ⟨st1, hst1⟩ := mainFold_ok_of_decodable jobId decode pre
    ⟨[], 0, [], []⟩ hpre
  have hpb : processBatchOutput jobId decode st1 pb =
      .error (.emptyBatch pb.batchIndex) := by
    unfold processBatchOutput
    rw [if_pos hempty]
  have hfold : (pre ++ pb :: post).foldlM (processBatchOutput jobId decode)
      (⟨[], 0, [], []⟩ : MainState) = .error (.emptyBatch pb.batchIndex) := by
    rw [List.foldlM_append, hst1]
    show (pb :: post).foldlM (processBatchOutput jobId decode) st1 =
      Except.error (SaveError.emptyBatch pb.batchIndex)
    rw [List.foldlM_cons, hpb]
    rfl
  unfold saveBatchResults
  rw [hfold]

/-- Witness for `c10_empty_batch_output`: the second output file has only
blank lines, so the stage errors naming batch 7. -/
theorem c10_empty_batch_output_witness :
    saveBatchResults "J" blankSecondBatches 2 dupDecode dupCrops
      retryCompleted emptyFileContent = .error (.emptyBatch 7) := by
  have h := c10_empty_batch_output "J" 2 dupDecode dupCrops retryCompleted
    emptyFileContent [⟨0, "A\nB"⟩] [] ⟨7, "  \n \n"⟩ (by decide)
    (by intro q hq; rw [List.mem_singleton] at hq; subst hq
        exact ⟨by decide, by decide⟩)
  simpa [blankSecondBatches] using h

theorem processLine_length (jobId : String) (st : MainState)
    (rec : LineRecord) (h : st.frames.length = st.count) :
    (processLine jobId st rec).frames.length =
      (processLine jobId st rec).count := by
  unfold processLine
  split
  · split
    · split
      · simpa using h
      · exact h
    · exact h
  · split
    · exact h
    · split
      · exact h
      · simpa using h

theorem processRetryLine_length (jobId : String)
    (decode : String → Option LineRecord) (st : MainState) (line : String)
    (h : st.frames.length = st.count) :
    (processRetryLine jobId decode st line).frames.length =
      (processRetryLine jobId decode st line).count := by
  unfold processRetryLine
  split
  · exact h
  · split
    · exact h
    · split
      · exact h
      · split
        · exact h
        · split
          · split
            · simpa using h
            · exact h
          · simpa using h

theorem retryFold_length (jobId : String)
    (decode : String → Option LineRecord) :
    ∀ (lines : List String) (st : MainState), st.frames.length = st.count →
    (lines.foldl (processRetryLine jobId decode) st).frames.length =
      (lines.foldl (processRetryLine jobId decode) st).count := by
  intro lines
  induction lines with
  | nil => intro st h; simpa using h
  | cons l ls ih =>
      intro st h
      rw [List.foldl_cons]
      exact ih _ (processRetryLine_length jobId decode st l h)

theorem processBatchOutput_length (jobId : String)
    (decode : String → Option LineRecord) (st : MainState)
    (pb : ProcessedBatch) (st2 : MainState) (h : st.frames.length = st.count)
    (hok : processBatchOutput jobId decode st pb = .ok st2) :
    st2.frames.length = st2.count := by
  simp only [processBatchOutput] at hok
  split at hok
  · cases hok
  · refine foldlM_except_preserve _ (fun s => s.frames.length = s.count)
      ?_ _ st st2 h hok
    intro s a s2 hs hstep
    rcases hdec : decode a with _ | rec <;> rw [hdec] at hstep
    · cases hstep
    · cases hstep
      exact processLine_length jobId s rec hs

theorem mainFold_length (jobId : String)
    (decode : String → Option LineRecord) (batches : List ProcessedBatch)
    (st st2 : MainState) (h : st.frames.length = st.count)
    (hok : batches.foldlM (processBatchOutput jobId decode) st = .ok st2) :
    st2.frames.length = st2.count := by
  refine foldlM_except_preserve _ (fun s => s.frames.length = s.count)
    ?_ batches st st2 h hok
  intro s a s2 hs hstep
  exact processBatchOutput_length jobId decode s a s2 hs hstep

/-- C1 counterexample: the strict count check does not imply one row per
WorkItem. With two expected items, a batch output echoing the first item's
correlation id twice and a retry round that returns nothing, reconciliation
succeeds with two Frame rows for item `1.png` and none for `2.png` — the
count equals the total image count, but "exactly one Frame row per expected
WorkItem" fails. -/
theorem c1_duplicate_echo_counterexample :
    saveBatchResults "J" dupBatches 2 dupDecode dupCrops retryCompleted
      emptyFileContent =
      .ok ([⟨"J", "1.png", "1", 0, "hello"⟩, ⟨"J", "1.png", "1", 0, "hello"⟩],
        2) ∧
    (2 : Nat) = dupCrops.length ∧
    (([(⟨"J", "1.png", "1", 0, "hello"⟩ : Frame),
       ⟨"J", "1.png", "1", 0, "hello"⟩]).filter
      (fun f => f.filename = "2.png")) = [] := by
  decide

/-- C1 (amended): the strict consistency check holds at the level of counts:
reconciliation succeeds only when the processed-line count equals the
recorded total image count (when that total is positive), and the persisted
Frame list always has exactly that many rows — but a duplicated correlation
id in the provider output can make two of those rows belong to one WorkItem
while another WorkItem gets none. -/
theorem c1_reconciled_count (jobId : String) (batches : List ProcessedBatch)
    (totalImages : Nat) (decode : String → Option LineRecord)
    (cropsMeta : List CropMeta) (retryStatuses : Nat → BatchStatusRead)
    (fileContent : String → String) (frames : List Frame) (n : Nat)
    (h : saveBatchResults jobId batches totalImages decode cropsMeta
      retryStatuses fileContent = .ok (frames, n)) :
    frames.length = n ∧ (0 < totalImages → n = totalImages) := by
  unfold saveBatchResults at h
  rcases hmain : batches.foldlM (processBatchOutput jobId decode)
      (⟨[], 0, [], []⟩ : MainState) with e | st <;> rw [hmain] at h
  · cases h
  · have hst : st.frames.length = st.count :=
      mainFold_length jobId decode batches _ st rfl hmain
    have h2 : (match retryPhase jobId decode cropsMeta retryStatuses
        fileContent st with
      | .error e => (.error e : Except SaveError (List Frame × Nat))
      | .ok st2 => finalizeSave totalImages batches.length st2) =
        .ok (frames, n) := h
    clear h
    rcases hretry : retryPhase jobId decode cropsMeta retryStatuses
        fileContent st with e | st2 <;> rw [hretry] at h2
    · cases h2
    · have hst2 : st2.frames.length = st2.count := by
        unfold retryPhase at hretry
        split at hretry
        · cases hretry
          exact hst
        · split at hretry
          · cases hretry
          · cases hretry
            exact retryFold_length jobId decode _ st hst
      have h3 : finalizeSave totalImages batches.length st2 =
          .ok (frames, n) := h2
      clear h2
      unfold finalizeSave at h3
      by_cases hmis : totalImages > 0 ∧ st2.count ≠ totalImages
      · rw [if_pos hmis] at h3
        cases h3
      · rw [if_neg hmis] at h3
        by_cases hemp : st2.frames.isEmpty = true
        · rw [if_pos hemp] at h3
          cases h3
        · rw [if_neg hemp] at h3
          cases h3
          refine ⟨hst2, ?_⟩
          intro hpos
          by_contra hne
          exact hmis ⟨hpos, fun hc => hne hc⟩

/-- Witness for `c1_reconciled_count`: a clean two-item run. -/
theorem c1_reconciled_count_witness :
    saveBatchResults "J" cleanBatches 2 dupDecode dupCrops retryCompleted
      emptyFileContent =
      .ok ([⟨"J", "1.png", "1", 0, "hello"⟩, ⟨"J", "2.png", "2", 1, "world"⟩],
        2) ∧
    (([⟨"J", "1.png", "1", 0, "hello"⟩,
       ⟨"J", "2.png", "2", 1, "world"⟩] : List Frame).length = 2 ∧
      (0 < 2 → 2 = 2)) :=
  ⟨by decide,
   c1_reconciled_count "J" cleanBatches 2 dupDecode dupCrops retryCompleted
     emptyFileContent _ 2 (by decide)⟩

/-! ### Helper lemmas for the pipeline write trace -/

theorem runBatches_mem (pf : Option Nat) :
    ∀ (r k : Nat), ∀ w ∈ (runBatches r k pf).1, w = progressWrite := by
  intro r
  induction r with
  | zero => intro k w hw; simp [runBatches] at hw
  | succ r ih =>
      intro k w hw
      simp only [runBatches] at hw
      split at hw
      · simpa using hw
      · simp only [List.mem_cons] at hw
        rcases hw with rfl | rfl | rfl | hw
        · rfl
        · rfl
        · rfl
        · exact ih (k + 1) w hw

theorem preWrites_mem (t : Nat) :
    ∀ w ∈ preprocessingWrite :: (streamCallbackWrites t ++
      [batchSubmittedWrite]),
    w = preprocessingWrite ∨ w = batchSubmittedWrite := by
  intro w hw
  rcases List.mem_cons.mp hw with rfl | hw
  · exact Or.inl rfl
  · rcases List.mem_append.mp hw with h | h
    · exact Or.inl (List.eq_of_mem_replicate h)
    · exact Or.inr (by simpa using h)

theorem processOcrJobWrites_error_handler (s : PipelineScenario) :
    ∀ w ∈ processOcrJobWrites s, w.errorWritten = true →
      w.step = none ∧ w.status = some JobsStatus.ERROR := by
  intro w hw he
  have herr : w = errWrite → w.step = none ∧ w.status = some JobsStatus.ERROR :=
    fun hwe => by subst hwe; exact ⟨rfl, rfl⟩
  have hfalse : ∀ v : JobWrite, v.errorWritten = false → w = v →
      w.step = none ∧ w.status = some JobsStatus.ERROR := by
    intro v hv hwv
    subst hwv
    rw [hv] at he
    cases he
  have hofpre : ∀ t, w ∈ preprocessingWrite :: (streamCallbackWrites t ++
      [batchSubmittedWrite]) → w.step = none ∧ w.status = some JobsStatus.ERROR := by
    intro t hmem
    rcases preWrites_mem t w hmem with rfl | rfl
    · rw [show preprocessingWrite.errorWritten = false from rfl] at he
      cases he
    · rw [show batchSubmittedWrite.errorWritten = false from rfl] at he
      cases he
  have hofbatch : ∀ r k pf, w ∈ (runBatches r k pf).1 →
      w.step = none ∧ w.status = some JobsStatus.ERROR := by
    intro r k pf hmem
    have := runBatches_mem pf r k w hmem
    subst this
    cases he
  simp only [processOcrJobWrites] at hw
  split at hw
  · exact herr (by simpa using hw)
  · split at hw
    · simp at hw
    · split at hw
      · simp at hw
      · split at hw
        · simp at hw
        · split at hw
          · exact hofpre _ hw
          · split at hw
            · rcases List.mem_append.mp hw with h | h
              · exact hofpre _ h
              · exact herr (by simpa using h)
            · split at hw
              · rcases List.mem_append.mp hw with h | h
                · rcases List.mem_append.mp h with h2 | h2
                  · rcases List.mem_append.mp h2 with h3 | h3
                    · exact hofpre _ h3
                    · exact hfalse progressWrite rfl (by simpa using h3)
                  · exact hofbatch _ _ _ h2
                · exact herr (by simpa using h)
              · split at hw
                · rcases List.mem_append.mp hw with h | h
                  · rcases List.mem_append.mp h with h2 | h2
                    · rcases List.mem_append.mp h2 with h3 | h3
                      · rcases List.mem_append.mp h3 with h4 | h4
                        · exact hofpre _ h4
                        · exact hfalse progressWrite rfl (by simpa using h4)
                      · exact hofbatch _ _ _ h3
                    · exact hfalse resultsSavedWrite rfl (by simpa using h2)
                  · exact herr (by simpa using h)
                · split at hw
                  · rcases List.mem_append.mp hw with h | h
                    · rcases List.mem_append.mp h with h2 | h2
                      · rcases List.mem_append.mp h2 with h3 | h3
                        · rcases List.mem_append.mp h3 with h4 | h4
                          · rcases List.mem_append.mp h4 with h5 | h5
                            · exact hofpre _ h5
                            · exact hfalse progressWrite rfl (by simpa using h5)
                          · exact hofbatch _ _ _ h4
                        · exact hfalse resultsSavedWrite rfl (by simpa using h3)
                      · rcases List.mem_cons.mp h2 with rfl | h3
                        · cases he
                        · exact hfalse resultsSavedWrite rfl (by simpa using h3)
                    · exact herr (by simpa using h)
                  · rcases List.mem_append.mp hw with h | h
                    · rcases List.mem_append.mp h with h2 | h2
                      · rcases List.mem_append.mp h2 with h3 | h3
                        · rcases List.mem_append.mp h3 with h4 | h4
                          · rcases List.mem_append.mp h4 with h5 | h5
                            · exact hofpre _ h5
                            · exact hfalse progressWrite rfl (by simpa using h5)
                          · exact hofbatch _ _ _ h4
                        · exact hfalse resultsSavedWrite rfl (by simpa using h3)
                      · rcases List.mem_cons.mp h2 with rfl | h3
                        · cases he
                        · exact hfalse resultsSavedWrite rfl (by simpa using h3)
                    · rcases List.mem_cons.mp h with rfl | h2
                      · cases he
                      · exact hfalse finalWrite rfl (by simpa using h2)

/-- C7 (amended): in a fresh run the persisted step advances through
PREPROCESSING, BATCH_SUBMITTED, RESULTS_SAVED and DOCS_BUILT but not
monotonically — RESULTS_SAVED is written before the reconciler runs, the
reconciler writes DOCS_BUILT, and a later progress write regresses the step
to RESULTS_SAVED before the final DOCS_BUILT write. When a stage throws,
the catch handler records `status = ERROR` with the error message and never
writes `step` (so step keeps its last written value, which — as the
reconciliation-failure trace shows — can be RESULTS_SAVED even though
reconciliation never succeeded). -/
theorem c7_step_writes :
    stepWrites (processOcrJobWrites c7OkScenario) =
      [.PREPROCESSING, .PREPROCESSING, .BATCH_SUBMITTED, .RESULTS_SAVED,
       .DOCS_BUILT, .RESULTS_SAVED, .DOCS_BUILT] ∧
    processOcrJobWrites c7SaveFailScenario =
      [preprocessingWrite, preprocessingWrite, batchSubmittedWrite,
       progressWrite, progressWrite, progressWrite, progressWrite,
       resultsSavedWrite, errWrite] ∧
    stepWrites (processOcrJobWrites c7SaveFailScenario) =
      [.PREPROCESSING, .PREPROCESSING, .BATCH_SUBMITTED, .RESULTS_SAVED] ∧
    (∀ s : PipelineScenario, ∀ w ∈ processOcrJobWrites s,
      w.errorWritten = true → w.step = none ∧
        w.status = some JobsStatus.ERROR) :=
  ⟨by decide, by decide, by decide, processOcrJobWrites_error_handler⟩

/-- Witness for `c7_step_writes`: the catch write of the failing trace. -/
theorem c7_step_writes_witness :
    errWrite ∈ processOcrJobWrites c7SaveFailScenario ∧
    errWrite.step = none ∧ errWrite.status = some JobsStatus.ERROR :=
  ⟨by decide,
   c7_step_writes.2.2.2 c7SaveFailScenario errWrite (by decide) (by decide)⟩

/-! ### Helper lemmas for the submitter -/

theorem chunkArray_nil (size : Nat) :
    chunkArray ([] : List α) size = [] := by
  unfold chunkArray
  split
  · rfl
  · rfl

theorem chunkArrayGo_fuel (size : Nat) (hs : size ≠ 0) :
    ∀ (f1 f2 : Nat) (l : List α), l.length ≤ f1 → l.length ≤ f2 →
    chunkArrayGo size f1 l = chunkArrayGo size f2 l := by
  intro f1
  induction f1 with
  | zero =>
      intro f2 l h1 _
      have hl : l = [] := List.length_eq_zero.mp (Nat.le_zero.mp h1)
      subst hl
      cases f2 <;> rfl
  | succ f1 ih =>
      intro f2 l h1 h2
      cases l with
      | nil => cases f2 <;> rfl
      | cons x xs =>
          cases f2 with
          | zero => simp at h2
          | succ f2 =>
              simp only [chunkArrayGo]
              congr 1
              have hd : ((x :: xs).drop size).length = xs.length + 1 - size := by
                simp [List.length_drop]
              apply ih
              · rw [hd]
                simp only [List.length_cons] at h1
                omega
              · rw [hd]
                simp only [List.length_cons] at h2
                omega

theorem chunkArray_cons (size : Nat) (hs : size ≠ 0) (l : List α)
    (hl : l ≠ []) :
    chunkArray l size = l.take size :: chunkArray (l.drop size) size := by
  obtain ⟨x, xs, rfl⟩ := List.exists_cons_of_ne_nil hl
  show chunkArray (x :: xs) size = _
  unfold chunkArray
  rw [if_neg hs, if_neg hs]
  rw [List.length_cons]
  simp only [chunkArrayGo]
  congr 1
  apply chunkArrayGo_fuel size hs
  · simp only [List.length_drop, List.length_cons]
    omega
  · exact Nat.le_refl _

theorem chunkArray_ne_nil (size : Nat) (hs : size ≠ 0) :
    ∀ (n : Nat) (l : List α), l.length ≤ n →
    ∀ c ∈ chunkArray l size, c ≠ [] := by
  intro n
  induction n with
  | zero =>
      intro l h c hc
      have hl : l = [] := List.length_eq_zero.mp (Nat.le_zero.mp h)
      subst hl
      rw [chunkArray_nil] at hc
      simp at hc
  | succ n ih =>
      intro l h c hc
      rcases eq_or_ne l [] with rfl | hne
      · rw [chunkArray_nil] at hc
        simp at hc
      · rw [chunkArray_cons size hs l hne] at hc
        rcases List.mem_cons.mp hc with rfl | hc
        · obtain ⟨x, xs, rfl⟩ := List.exists_cons_of_ne_nil hne
          obtain ⟨m, rfl⟩ : ∃ m, size = m + 1 :=
            ⟨size - 1, by omega⟩
          simp [List.take_cons]
        · refine ih (l.drop size) ?_ c hc
          simp only [List.length_drop]
          have : l.length ≤ n + 1 := h
          have hpos : 0 < l.length := List.length_pos.mpr hne
          omega

theorem createAttempts_no_reject {α : Type} (rejects : Nat → Bool)
    (hrej : ∀ n, rejects n = false) (bi r calls : Nat) (chunk : List α)
    (size : Nat) (hne : chunk ≠ []) :
    createAttempts rejects bi (r + 1) calls chunk size =
      .ok (chunk, size, calls + 1) := by
  have hie : chunk.isEmpty = false := by
    cases chunk with
    | nil => exact absurd rfl hne
    | cons a l => rfl
  simp only [createAttempts, hie, hrej calls]
  rfl

theorem drop_eq_get_cons {α : Type} :
    ∀ (l : List α) (n : Nat) (h : n < l.length),
    l.drop n = l.get ⟨n, h⟩ :: l.drop (n + 1) := by
  intro l
  induction l with
  | nil => intro n h; simp at h
  | cons x xs ih =>
      intro n h
      cases n with
      | zero => rfl
      | succ n =>
          simp only [List.drop_succ_cons]
          exact ih n (by simpa using h)

theorem submitLoopGo_no_reject {α : Type} (items : List α)
    (rejects : Nat → Bool) (hrej : ∀ n, rejects n = false) :
    ∀ (fuel : Nat) (st : SubmitState α),
    st.currentBatchSize = BATCH_SIZE →
    (∀ c ∈ st.cropsChunks, c ≠ []) →
    st.cropsChunks.length - st.batchIndex < fuel →
    ∃ stf, submitLoopGo items rejects fuel st = .ok stf ∧
      stf.submitted = st.submitted ++ submittedBatchesFrom st.batchIndex
        st.processedItemsCount (st.cropsChunks.drop st.batchIndex) := by
  intro fuel
  induction fuel with
  | zero => intro st _ _ h; omega
  | succ fuel ih =>
      intro st hsize hne hfuel
      by_cases hlt : st.batchIndex < st.cropsChunks.length
      · have hchunk_ne : st.cropsChunks.get ⟨st.batchIndex, hlt⟩ ≠ [] :=
          hne _ (st.cropsChunks.get_mem _ _)
        have hca := createAttempts_no_reject rejects hrej st.batchIndex
          (maxRetriesFor st.currentBatchSize) st.calls
          (st.cropsChunks.get ⟨st.batchIndex, hlt⟩) st.currentBatchSize
          hchunk_ne
        have hstep : submitLoopGo items rejects (fuel + 1) st =
            submitLoopGo items rejects fuel
              { st with
                submitted := st.submitted ++ [⟨st.batchIndex,
                  st.processedItemsCount,
                  st.cropsChunks.get ⟨st.batchIndex, hlt⟩⟩]
                submittedImages := st.submittedImages +
                  (st.cropsChunks.get ⟨st.batchIndex, hlt⟩).length
                processedItemsCount := st.processedItemsCount +
                  (st.cropsChunks.get ⟨st.batchIndex, hlt⟩).length
                batchIndex := st.batchIndex + 1
                calls := st.calls + 1 } := by
          simp only [submitLoopGo]
          rw [dif_pos hlt]
          simp only [hca, ne_eq, eq_self_iff_true, not_true_eq_false,
            if_false, List.get?_eq_get hlt]
        rw [hstep]
        obtain ⟨stf, hrun, hsub⟩ := ih
          { st with
            submitted := st.submitted ++ [⟨st.batchIndex,
              st.processedItemsCount,
              st.cropsChunks.get ⟨st.batchIndex, hlt⟩⟩]
            submittedImages := st.submittedImages +
              (st.cropsChunks.get ⟨st.batchIndex, hlt⟩).length
            processedItemsCount := st.processedItemsCount +
              (st.cropsChunks.get ⟨st.batchIndex, hlt⟩).length
            batchIndex := st.batchIndex + 1
            calls := st.calls + 1 }
          hsize (fun c hc => hne c hc) (by simp only []; omega)
        refine ⟨stf, hrun, ?_⟩
        rw [hsub]
        have hdrop := drop_eq_get_cons st.cropsChunks st.batchIndex hlt
        rw [hdrop]
        simp [submittedBatchesFrom, List.append_assoc]
      · refine ⟨st, ?_, ?_⟩
        · simp only [submitLoopGo]
          rw [dif_neg hlt]
        · rw [List.drop_eq_nil_of_le (by omega)]
          simp [submittedBatchesFrom]

theorem submitLoop_no_reject {α : Type} (items : List α)
    (rejects : Nat → Bool) (hrej : ∀ n, rejects n = false) (fuel : Nat)
    (hfuel : (chunkArray items BATCH_SIZE).length < fuel) :
    ∃ stf, submitLoop items rejects fuel = .ok stf ∧
      stf.submitted = submittedBatchesFrom 0 0
        (chunkArray items BATCH_SIZE) := by
  obtain ⟨stf, hrun, hsub⟩ := submitLoopGo_no_reject items rejects hrej fuel
    ⟨chunkArray items BATCH_SIZE, 0, 0, BATCH_SIZE, 0,
      (chunkArray items BATCH_SIZE).length, [], 0⟩ rfl
    (chunkArray_ne_nil BATCH_SIZE (by decide) items.length items
      (Nat.le_refl _))
    (by simpa using hfuel)
  exact ⟨stf, hrun, by simpa using hsub⟩

theorem enumFrom_map_ids (jobId : String) (bi : Nat) :
    ∀ (chunk : List CropMeta) (s g : Nat),
    (List.enumFrom g chunk).map
      (fun ic => mkCustomId jobId bi (s + ic.1) ic.2.filename) =
      idsFrom jobId bi (s + g) chunk := by
  intro chunk
  induction chunk with
  | nil => intro s g; rfl
  | cons c rest ih =>
      intro s g
      rw [List.enumFrom_cons]
      simp only [List.map_cons, idsFrom, List.cons.injEq]
      refine ⟨trivial, ?_⟩
      rw [show s + g + 1 = s + (g + 1) from by omega]
      exact ih s (g + 1)

theorem submittedCustomIds_eq_idsFrom (jobId : String) (bi s : Nat)
    (chunk : List CropMeta) :
    submittedCustomIds jobId ⟨bi, s, chunk⟩ = idsFrom jobId bi s chunk := by
  show chunk.enum.map
    (fun ic => mkCustomId jobId bi (s + ic.1) ic.2.filename) = _
  rw [List.enum_eq_enumFrom]
  have h := enumFrom_map_ids jobId bi chunk s 0
  simpa using h

theorem enumFrom_map_expected (jobId : String) :
    ∀ (l : List CropMeta) (g : Nat),
    (List.enumFrom g l).map
      (fun ic => mkCustomId jobId (ic.1 / BATCH_SIZE) ic.1 ic.2.filename) =
      expectedIdsFrom jobId g l := by
  intro l
  induction l with
  | nil => intro g; rfl
  | cons c rest ih =>
      intro g
      rw [List.enumFrom_cons]
      simp only [List.map_cons, expectedIdsFrom, List.cons.injEq]
      exact ⟨trivial, ih (g + 1)⟩

theorem expectedEntries_ids (jobId : String) (cropsMeta : List CropMeta) :
    (expectedEntries jobId cropsMeta).map (fun e => e.customId) =
      expectedIdsFrom jobId 0 cropsMeta := by
  unfold expectedEntries
  rw [List.map_map, List.enum_eq_enumFrom]
  exact enumFrom_map_expected jobId cropsMeta 0

theorem idsFrom_eq_expectedIdsFrom_chunk (jobId : String) (k : Nat) :
    ∀ (chunk : List CropMeta) (g : Nat),
    k * BATCH_SIZE ≤ g → g + chunk.length ≤ (k + 1) * BATCH_SIZE →
    idsFrom jobId k g chunk = expectedIdsFrom jobId g chunk := by
  intro chunk
  induction chunk with
  | nil => intro g _ _; rfl
  | cons c rest ih =>
      intro g hlo hhi
      simp only [List.length_cons] at hhi
      simp only [idsFrom, expectedIdsFrom, List.cons.injEq]
      refine ⟨?_, ih (g + 1) (by omega) (by omega)⟩
      have hdiv : g / BATCH_SIZE = k :=
        Nat.div_eq_of_lt_le hlo (by omega)
      rw [hdiv]

theorem expectedIdsFrom_append (jobId : String) :
    ∀ (l1 l2 : List CropMeta) (g : Nat),
    expectedIdsFrom jobId g (l1 ++ l2) =
      expectedIdsFrom jobId g l1 ++ expectedIdsFrom jobId (g + l1.length) l2 := by
  intro l1
  induction l1 with
  | nil => intro l2 g; simp [expectedIdsFrom]
  | cons c rest ih =>
      intro l2 g
      simp only [List.cons_append, expectedIdsFrom, List.length_cons,
        List.append_eq, List.cons.injEq]
      rw [ih l2 (g + 1)]
      refine ⟨trivial, ?_⟩
      rw [show g + 1 + rest.length = g + (rest.length + 1) from by omega]

theorem allSubmitted_eq_expected_aux (jobId : String) :
    ∀ (n : Nat) (rest : List CropMeta) (k : Nat), rest.length ≤ n →
    allSubmittedCustomIds jobId (submittedBatchesFrom k (k * BATCH_SIZE)
      (chunkArray rest BATCH_SIZE)) =
      expectedIdsFrom jobId (k * BATCH_SIZE) rest := by
  intro n
  induction n with
  | zero =>
      intro rest k h
      have hl : rest = [] := List.length_eq_zero.mp (Nat.le_zero.mp h)
      subst hl
      rw [chunkArray_nil]
      rfl
  | succ n ih =>
      intro rest k h
      rcases eq_or_ne rest [] with rfl | hne
      · rw [chunkArray_nil]
        rfl
      · rw [chunkArray_cons BATCH_SIZE (by decide) rest hne]
        show submittedCustomIds jobId ⟨k, k * BATCH_SIZE,
            rest.take BATCH_SIZE⟩ ++
          allSubmittedCustomIds jobId (submittedBatchesFrom (k + 1)
            (k * BATCH_SIZE + (rest.take BATCH_SIZE).length)
            (chunkArray (rest.drop BATCH_SIZE) BATCH_SIZE)) = _
        rw [submittedCustomIds_eq_idsFrom]
        by_cases hlen : rest.length ≤ BATCH_SIZE
        · rw [List.take_of_length_le hlen, List.drop_eq_nil_of_le hlen,
            chunkArray_nil]
          show idsFrom jobId k (k * BATCH_SIZE) rest ++ [] = _
          rw [List.append_nil]
          exact idsFrom_eq_expectedIdsFrom_chunk jobId k rest (k * BATCH_SIZE)
            (Nat.le_refl _) (by
              have : (k + 1) * BATCH_SIZE = k * BATCH_SIZE + BATCH_SIZE := by
                ring
              omega)
        · push_neg at hlen
          have htake : (rest.take BATCH_SIZE).length = BATCH_SIZE := by
            rw [List.length_take]
            omega
          rw [htake]
          have hstep : k * BATCH_SIZE + BATCH_SIZE = (k + 1) * BATCH_SIZE := by
            ring
          rw [hstep]
          rw [ih (rest.drop BATCH_SIZE) (k + 1) (by
            have hB : 0 < BATCH_SIZE := by decide
            simp only [List.length_drop]
            omega)]
          conv_rhs => rw [← List.take_append_drop BATCH_SIZE rest]
          rw [expectedIdsFrom_append jobId (rest.take BATCH_SIZE)
            (rest.drop BATCH_SIZE) (k * BATCH_SIZE), htake, hstep]
          congr 1
          exact idsFrom_eq_expectedIdsFrom_chunk jobId k (rest.take BATCH_SIZE)
            (k * BATCH_SIZE) (Nat.le_refl _) (by rw [htake]; omega)

theorem processLine_seen (jobId : String) (st : MainState)
    (rec : LineRecord) :
    (processLine jobId st rec).seen =
      match countedId rec with
      | some cid => cid :: st.seen
      | none => st.seen := by
  rcases rec with ⟨cid?, err, content⟩
  rcases cid? with _ | cid
  · cases err <;> rfl
  · rcases hp : parseCustomId cid with _ | fi
    · cases err <;> simp [processLine, countedId, Option.bind, hp]
    · cases err <;> simp [processLine, countedId, Option.bind, hp]

theorem processLines_seen (jobId : String)
    (decode : String → Option LineRecord) (bi : Nat) :
    ∀ (lines : List String) (st st2 : MainState),
    lines.foldlM (fun st line =>
      match decode line with
      | none => Except.error (SaveError.invalidJson bi)
      | some rec => Except.ok (processLine jobId st rec)) st =
        Except.ok st2 →
    st2.seen =
      (lines.filterMap (fun l => (decode l).bind countedId)).reverse ++
        st.seen := by
  intro lines
  induction lines with
  | nil =>
      intro st st2 h
      cases h
      simp
  | cons l ls ih =>
      intro st st2 h
      rw [List.foldlM_cons] at h
      rcases hd : decode l with _ | rec <;> rw [hd] at h
      · cases h
      · have h2 := ih (processLine jobId st rec) st2 h
        rw [h2, processLine_seen]
        rcases hc : countedId rec with _ | cid
        · simp [List.filterMap_cons, hd, hc, Option.bind]
        · simp [List.filterMap_cons, hd, hc, Option.bind]

theorem mainFold_seen (jobId : String)
    (decode : String → Option LineRecord) :
    ∀ (batches : List ProcessedBatch) (st st2 : MainState),
    batches.foldlM (processBatchOutput jobId decode) st = .ok st2 →
    st2.seen = (countedIdsOf decode batches).reverse ++ st.seen := by
  intro batches
  induction batches with
  | nil =>
      intro st st2 h
      cases h
      simp [countedIdsOf]
  | cons q qs ih =>
      intro st st2 h
      rw [List.foldlM_cons] at h
      rcases hq : processBatchOutput jobId decode st q with e | st1 <;>
        rw [hq] at h
      · cases h
      · have h2 := ih st1 st2 h
        unfold processBatchOutput at hq
        have hq' : (if nonblankLines q.output = [] then
            Except.error (SaveError.emptyBatch q.batchIndex)
          else (nonblankLines q.output).foldlM (fun st line =>
            match decode line with
            | none => Except.error (SaveError.invalidJson q.batchIndex)
            | some rec => Except.ok (processLine jobId st rec)) st) =
              Except.ok st1 := hq
        split at hq'
        · cases hq'
        · have h1 := processLines_seen jobId decode q.batchIndex
            (nonblankLines q.output) st st1 hq'
          rw [h2, h1]
          simp [countedIdsOf, List.flatMap_cons, List.filterMap_append,
            List.reverse_append, List.append_assoc]

theorem mem_missingItemsOf (expected : List ExpectedEntry)
    (seen : List String) (e : ExpectedEntry) :
    e ∈ missingItemsOf expected seen ↔
      e ∈ expected ∧ e.customId ∉ seen := by
  simp [missingItemsOf, List.mem_filter, List.contains, List.elem_iff]

/-- C5: whenever the provider never capacity-rejects a `batches.create` call
(so no adaptive re-chunking occurs), the correlation ids the submission loop
embeds in its request lines coincide, in order, with the expected ids the
reconciler rebuilds from the WorkItem manifest (job id, batch ordinal
`idx / 500`, global index and filename all agree); and after a successful
main parsing pass an expected entry is classified missing exactly when no
parsed output line echoed its correlation id. -/
theorem c5_correlation_ids (jobId : String) (cropsMeta : List CropMeta)
    (rejects : Nat → Bool) (fuel : Nat) (stf : SubmitState CropMeta)
    (decode : String → Option LineRecord) (batches : List ProcessedBatch)
    (st2 : MainState)
    (hrej : ∀ n, rejects n = false)
    (hfuel : (chunkArray cropsMeta BATCH_SIZE).length < fuel)
    (hloop : submitLoop cropsMeta rejects fuel = .ok stf)
    (hfold : batches.foldlM (processBatchOutput jobId decode)
      (⟨[], 0, [], []⟩ : MainState) = .ok st2) :
    allSubmittedCustomIds jobId stf.submitted =
      (expectedEntries jobId cropsMeta).map (fun e => e.customId) ∧
    ∀ e ∈ expectedEntries jobId cropsMeta,
      (e ∈ missingItemsOf (expectedEntries jobId cropsMeta) st2.seen ↔
        e.customId ∉ countedIdsOf decode batches) := by
  constructor
  · obtain ⟨stf', hloop', hsub⟩ :=
      submitLoop_no_reject cropsMeta rejects hrej fuel hfuel
    rw [hloop] at hloop'
    cases hloop'
    rw [hsub]
    have haux := allSubmitted_eq_expected_aux jobId cropsMeta.length
      cropsMeta 0 (Nat.le_refl _)
    rw [Nat.zero_mul] at haux
    rw [haux, expectedEntries_ids]
  · intro e he
    have hseen := mainFold_seen jobId decode batches _ st2 hfold
    rw [mem_missingItemsOf, hseen]
    simp [he, List.mem_reverse]

theorem c5_correlation_ids_witness :
    allSubmittedCustomIds "J" c5WitnessLoopState.submitted =
      (expectedEntries "J" dupCrops).map (fun e => e.customId) := by
  rcases hloop : submitLoop dupCrops noReject 2 with e | stf
  · have hok : (submitLoop dupCrops noReject 2).isOk = true := by decide
    rw [hloop] at hok
    cases hok
  · rcases hfold : cleanBatches.foldlM (processBatchOutput "J" dupDecode)
        (⟨[], 0, [], []⟩ : MainState) with e | st2
    · have hok : (cleanBatches.foldlM (processBatchOutput "J" dupDecode)
          (⟨[], 0, [], []⟩ : MainState)).isOk = true := by decide
      rw [hfold] at hok
      cases hok
    · have h := (c5_correlation_ids "J" dupCrops noReject 2 stf dupDecode
        cleanBatches st2 (fun _ => rfl) (by decide) hloop hfold).1
      have hW : c5WitnessLoopState = stf := by
        unfold c5WitnessLoopState
        rw [hloop]
      rw [hW]
      exact h

set_option maxRecDepth 10000 in
/-- C5 counterexample: after one token-limit rejection the claimed identity
fails. With 401 WorkItems the first `batches.create` call is rejected, the
loop submits the truncated 400-item batch, and the re-chunked remainder is
dropped by the splice: the reconciler's expected ids (401 of them, rebuilt
with constant batch size 500) strictly contain the 400 ids actually
embedded — item 400's id is expected but never submitted, although the
loop's own `totalBatches` bookkeeping still counts the dropped batch. -/
theorem c5_expected_vs_submitted_counterexample :
    (submitLoop c5Crops rejectFirstCall 4).isOk = true ∧
    mkCustomId "J" 0 400 "400.png" ∈
      (expectedEntries "J" c5Crops).map (fun e => e.customId) ∧
    mkCustomId "J" 0 400 "400.png" ∉
      allSubmittedCustomIds "J" c5LoopState.submitted ∧
    (expectedEntries "J" c5Crops).length = 401 ∧
    (allSubmittedCustomIds "J" c5LoopState.submitted).length = 400 ∧
    c5LoopState.totalBatches = 2 := by
  refine ⟨?_, ?_, ?_, ?_, ?_, ?_⟩ <;> decide

theorem foldl_invariant {σ α : Type} (f : σ → α → σ) (P : σ → Prop) :
    ∀ (l : List α) (s : σ), P s →
    (∀ acc a, a ∈ l → P acc → P (f acc a)) → P (l.foldl f s) := by
  intro l
  induction l with
  | nil => intro s hs _; exact hs
  | cons x xs ih =>
      intro s hs hf
      rw [List.foldl_cons]
      exact ih (f s x) (hf s x (by simp) hs)
        (fun acc a ha hacc => hf acc a (by simp [ha]) hacc)

theorem contains_iff_mem_str (l : List String) (a : String) :
    l.contains a = true ↔ a ∈ l := by
  simp [List.contains, List.elem_iff]

theorem buildRetryStep_shape (cropsMeta : List CropMeta)
    (expected : List ExpectedEntry) (acc : List String × List RetryLine)
    (item : RetryItem) :
    (acc.1.contains item.customId = true ∧
      buildRetryStep cropsMeta expected acc item = acc) ∨
    (acc.1.contains item.customId = false ∧
      (buildRetryStep cropsMeta expected acc item =
          (item.customId :: acc.1, acc.2) ∨
        ∃ u, buildRetryStep cropsMeta expected acc item =
          (item.customId :: acc.1,
            acc.2 ++ [({ customId := item.customId, url := u } :
              RetryLine)]))) := by
  by_cases hc : acc.1.contains item.customId
  · left
    refine ⟨hc, ?_⟩
    unfold buildRetryStep
    rw [if_pos hc]
  · right
    refine ⟨by simpa using hc, ?_⟩
    have hstep : buildRetryStep cropsMeta expected acc item =
        (match (match cropUrlMapOf cropsMeta item.filename with
          | some u => if u ≠ "" then some u else
              (expected.find? (fun e => e.customId = item.customId)).map
                (fun e => e.url)
          | none => (expected.find? (fun e => e.customId = item.customId)).map
              (fun e => e.url)) with
        | some u =>
            if u ≠ "" then (item.customId :: acc.1,
              acc.2 ++ [({ customId := item.customId, url := u } :
                RetryLine)])
            else (item.customId :: acc.1, acc.2)
        | none => (item.customId :: acc.1, acc.2)) := by
      unfold buildRetryStep
      rw [if_neg hc]
      rfl
    rw [hstep]
    split
    · split
      · right; exact ⟨_, rfl⟩
      · left; rfl
    · left; rfl

/-- C6 (amended): the Reconciler issues at most one supplementary retry
batch, whose request lines carry only failed-or-missing items' correlation
ids, each id at most once (items whose image url cannot be resolved are
silently dropped from the retry rather than retried); no retry is submitted
when the failed-plus-missing union is empty; and when each distinct item is
echoed at most once, an item still absent after the single retry makes the
stage throw a mismatch error instead of persisting a short Frame set — the
concrete conjunct: with two expected items and outputs echoing only item 1
once, reconciliation throws `mismatch (expected 2, got 1)`. A duplicated
echo, however, can mask the absence (see the counterexample). -/
theorem c6_single_retry :
    (∀ (cropsMeta : List CropMeta) (expected : List ExpectedEntry)
        (items : List RetryItem),
      ((buildRetryLines cropsMeta expected items).map
        (fun l => l.customId)).Nodup ∧
      ∀ l ∈ buildRetryLines cropsMeta expected items,
        l.customId ∈ items.map (fun i => i.customId)) ∧
    (∀ (jobId : String) (decode : String → Option LineRecord)
        (cropsMeta : List CropMeta) (retryStatuses : Nat → BatchStatusRead)
        (fileContent : String → String) (st : MainState),
      retryItemsOf (expectedEntries jobId cropsMeta) st = [] →
      retryPhase jobId decode cropsMeta retryStatuses fileContent st =
        .ok st) ∧
    saveBatchResults "J" shortBatches 2 dupDecode dupCrops retryCompleted
      emptyFileContent = .error (.mismatch 2 1 1) := by
  refine ⟨?_, ?_, by decide⟩
  · intro cropsMeta expected items
    have key := foldl_invariant (buildRetryStep cropsMeta expected)
      (fun acc => (∀ c ∈ acc.2.map (fun l => l.customId), c ∈ acc.1) ∧
        (∀ c ∈ acc.1, c ∈ items.map (fun i => i.customId)) ∧
        (acc.2.map (fun l => l.customId)).Nodup)
      items (([] : List String), ([] : List RetryLine))
      ⟨by simp, by simp, by simp⟩ ?_
    · unfold buildRetryLines
      refine ⟨key.2.2, ?_⟩
      intro l hl
      exact key.2.1 l.customId (key.1 l.customId (List.mem_map_of_mem _ hl))
    · intro acc a ha hacc
      rcases buildRetryStep_shape cropsMeta expected acc a with
        ⟨_, heq⟩ | ⟨hc, heq | ⟨u, heq⟩⟩
      · rw [heq]; exact hacc
      · rw [heq]
        refine ⟨?_, ?_, hacc.2.2⟩
        · intro c hcm
          exact List.mem_cons_of_mem _ (hacc.1 c hcm)
        · intro c hcm
          rcases List.mem_cons.mp hcm with rfl | hcm
          · exact List.mem_map_of_mem _ ha
          · exact hacc.2.1 c hcm
      · have hnot : a.customId ∉ acc.1 := fun hmem => by
          have hctr := (contains_iff_mem_str acc.1 a.customId).mpr hmem
          rw [hc] at hctr
          cases hctr
        rw [heq]
        refine ⟨?_, ?_, ?_⟩
        · intro c hcm
          rw [List.map_append] at hcm
          rcases List.mem_append.mp hcm with hcm | hcm
          · exact List.mem_cons_of_mem _ (hacc.1 c hcm)
          · simp at hcm
            subst hcm
            exact List.mem_cons_self _ _
        · intro c hcm
          rcases List.mem_cons.mp hcm with rfl | hcm
          · exact List.mem_map_of_mem _ ha
          · exact hacc.2.1 c hcm
        · rw [List.map_append]
          refine List.Nodup.append hacc.2.2 (by simp) ?_
          intro c hcm hcx
          simp at hcx
          subst hcx
          exact hnot (hacc.1 _ hcm)
  · intro jobId decode cropsMeta retryStatuses fileContent st hnil
    unfold retryPhase
    rw [hnil]
    rfl

theorem c6_single_retry_witness :
    dupId1 ∈ ([⟨dupId1, "2.png", 1⟩] : List RetryItem).map
      (fun i => i.customId) ∧
    retryPhase "J" dupDecode [] retryCompleted emptyFileContent
      ⟨[], 0, [], []⟩ = .ok ⟨[], 0, [], []⟩ :=
  ⟨(c6_single_retry.1 dupCrops (expectedEntries "J" dupCrops)
      [⟨dupId1, "2.png", 1⟩]).2 ⟨dupId1, "u2"⟩ (by decide),
   c6_single_retry.2.1 "J" dupDecode [] retryCompleted emptyFileContent
     ⟨[], 0, [], []⟩ (by decide)⟩

/-- C6 counterexample: an item's result can be absent from every main batch
output AND from the single retry's output while reconciliation still
succeeds. With two expected items, outputs echoing item 1's id twice and an
empty retry output, the supplementary batch correctly contains exactly item
2, item 2's id is echoed nowhere, and yet `saveBatchResults` persists
without throwing a mismatch — the duplicated echo keeps the processed-line
count equal to `totalImages`. -/
theorem c6_absent_after_retry_counterexample :
    retrySubmissionOf "J" dupBatches dupDecode dupCrops =
      some [⟨dupId1, "u2"⟩] ∧
    dupId1 ∉ countedIdsOf dupDecode dupBatches ∧
    successCountedIdsOf dupDecode
      (nonblankLines (emptyFileContent "retry-out")) = [] ∧
    (saveBatchResults "J" dupBatches 2 dupDecode dupCrops retryCompleted
      emptyFileContent).isOk = true := by
  refine ⟨?_, ?_, ?_, ?_⟩ <;> decide

end OcrApp
